import Mathlib

/-!
# Verification of the iridium assembler / VM core

A shallow embedding of the iridium toolchain (a two-pass assembler and a
byte-code virtual machine) together with proofs about the embedded code.

Conventions of the embedding:
* machine bytes are `Nat` values (always `< 256` by construction);
* Rust `i32` values are `Int` values kept in `[-2^31, 2^31)` by explicit
  wrapping (`wrap32`), matching release-mode two's-complement wrapping;
* Rust `f64` values are modelled by exact rationals (`Rat`); no theorem in
  this file inspects a floating-point result, so rounding never matters;
* fallible operations (indexing panics, `unwrap`, `todo!`, `assert!`,
  `std::process::exit`) are modelled explicitly: a computation that panics
  returns a "panicked" marker together with the state reached so far;
* network / uuid / timestamp fields of the original structures, which no
  claim mentions, are omitted.
-/

namespace Iridium

/-! ## Opcode table (src/instruction.rs)

`Opcode` is a fieldless Rust enum; `toByte` is the value of `op as u8`,
i.e. the declaration index.  `fromByte` is `impl From<u8> for Opcode`,
written out entry by entry exactly as in the source.  `fromMnemonic` is
`impl From<&str> for Opcode`. -/

inductive Opcode
  | LOAD | ADD | SUB | MUL | DIV | HLT | JMP | JMPF | JMPB
  | EQ | NEQ | GTE | LTE | LT | GT | JMPE | NOP | ALOC | INC | DEC
  | DJMPE | IGL | PRTS
  | LOADF64 | ADDF64 | SUBF64 | MULF64 | DIVF64
  | EQF64 | NEQF64 | GTF64 | GTEF64 | LTF64 | LTEF64
  | SHL | SHR | AND | OR | XOR | NOT | LUI | CLOOP | LOOP
  | LOADM | SETM | PUSH | POP | CALL | RET
  deriving DecidableEq, Repr

/-- `op as u8`: the discriminant, i.e. the declaration index of the variant. -/
def Opcode.toByte : Opcode → Nat
  | .LOAD => 0 | .ADD => 1 | .SUB => 2 | .MUL => 3 | .DIV => 4
  | .HLT => 5 | .JMP => 6 | .JMPF => 7 | .JMPB => 8
  | .EQ => 9 | .NEQ => 10 | .GTE => 11 | .LTE => 12 | .LT => 13 | .GT => 14
  | .JMPE => 15 | .NOP => 16 | .ALOC => 17 | .INC => 18 | .DEC => 19
  | .DJMPE => 20 | .IGL => 21 | .PRTS => 22
  | .LOADF64 => 23 | .ADDF64 => 24 | .SUBF64 => 25 | .MULF64 => 26
  | .DIVF64 => 27 | .EQF64 => 28 | .NEQF64 => 29 | .GTF64 => 30
  | .GTEF64 => 31 | .LTF64 => 32 | .LTEF64 => 33
  | .SHL => 34 | .SHR => 35 | .AND => 36 | .OR => 37 | .XOR => 38
  | .NOT => 39 | .LUI => 40 | .CLOOP => 41 | .LOOP => 42
  | .LOADM => 43 | .SETM => 44 | .PUSH => 45 | .POP => 46
  | .CALL => 47 | .RET => 48

/-- `impl From<u8> for Opcode` (src/instruction.rs, lines 55..109),
entry for entry.  Note the table has no entry for `IGL`: byte 21 maps to
`PRTS` and every later mnemonic sits one below its discriminant. -/
def Opcode.fromByte : Nat → Opcode
  | 0 => .LOAD | 1 => .ADD | 2 => .SUB | 3 => .MUL | 4 => .DIV
  | 5 => .HLT | 6 => .JMP | 7 => .JMPF | 8 => .JMPB
  | 9 => .EQ | 10 => .NEQ | 11 => .GTE | 12 => .LTE | 13 => .LT | 14 => .GT
  | 15 => .JMPE | 16 => .NOP | 17 => .ALOC | 18 => .INC | 19 => .DEC
  | 20 => .DJMPE | 21 => .PRTS
  | 22 => .LOADF64 | 23 => .ADDF64 | 24 => .SUBF64 | 25 => .MULF64
  | 26 => .DIVF64 | 27 => .EQF64 | 28 => .NEQF64 | 29 => .GTF64
  | 30 => .GTEF64 | 31 => .LTF64 | 32 => .LTEF64
  | 33 => .SHL | 34 => .SHR | 35 => .AND | 36 => .OR | 37 => .XOR
  | 38 => .NOT | 39 => .LUI | 40 => .CLOOP | 41 => .LOOP
  | 42 => .LOADM | 43 => .SETM | 44 => .PUSH | 45 => .POP
  | 46 => .CALL | 47 => .RET
  | _ => .IGL

/-- `impl From<&str> for Opcode` (src/instruction.rs, lines 111..165). -/
def Opcode.fromMnemonic : String → Opcode
  | "load" => .LOAD | "add" => .ADD | "sub" => .SUB | "mul" => .MUL
  | "div" => .DIV | "hlt" => .HLT | "jmp" => .JMP | "jmpf" => .JMPF
  | "jmpb" => .JMPB | "eq" => .EQ | "neq" => .NEQ | "gte" => .GTE
  | "gt" => .GT | "lte" => .LTE | "lt" => .LT | "jmpe" => .JMPE
  | "nop" => .NOP | "aloc" => .ALOC | "inc" => .INC | "dec" => .DEC
  | "djmpe" => .DJMPE | "prts" => .PRTS
  | "loadf64" => .LOADF64 | "addf64" => .ADDF64 | "subf64" => .SUBF64
  | "mulf64" => .MULF64 | "divf64" => .DIVF64 | "eqf64" => .EQF64
  | "neqf64" => .NEQF64 | "gtf64" => .GTF64 | "gtef64" => .GTEF64
  | "ltf64" => .LTF64 | "ltef64" => .LTEF64
  | "shl" => .SHL | "shr" => .SHR | "and" => .AND | "or" => .OR
  | "xor" => .XOR | "not" => .NOT | "lui" => .LUI | "cloop" => .CLOOP
  | "loop" => .LOOP | "loadm" => .LOADM | "setm" => .SETM
  | "push" => .PUSH | "pop" => .POP | "call" => .CALL | "ret" => .RET
  | _ => .IGL

/-! ## Machine-integer helpers -/

/-- Interpret an integer as Rust `i32` with two's-complement wrapping
(release-mode semantics; the spec documents "overflow wraps"). -/
def wrap32 (x : Int) : Int := (x + 2 ^ 31) % 2 ^ 32 - 2 ^ 31

/-- The low 16 bits of an `i32`, read as an unsigned 16-bit value: the
effect of `value as i16` followed by splitting into bytes. -/
def lo16 (x : Int) : Nat := (x % 2 ^ 16).toNat

/-- `v as usize` for an `i32` value `v` (sign extension to 64 bits). -/
def usizeOfI32 (x : Int) : Nat := (x % 2 ^ 64).toNat

/-! ## Tokens (src/assembler/token.rs)

`FloatOperand` is omitted: `parse_float_operand` is never reached by the
instruction grammar and no claim mentions it. -/

inductive Token
  | Op (code : Opcode)
  | Register (regNum : Nat)
  | IntegerOperand (value : Int)
  | StringOperand (value : String)
  | LabelDeclaration (name : String)
  | LabelUsage (name : String)
  | Directive (name : String)
  deriving DecidableEq, Repr

/-! ## Symbol table (src/assembler/symbols.rs) -/

inductive SymbolType
  | Label
  deriving DecidableEq, Repr

structure Symbol where
  name : String
  offset : Option Nat
  symbolType : SymbolType
  deriving DecidableEq, Repr

/-- `Symbol::new`: the offset starts out unset. -/
def Symbol.new (name : String) (symbolType : SymbolType) : Symbol :=
  { name := name, offset := none, symbolType := symbolType }

structure SymbolTable where
  symbols : List Symbol
  deriving DecidableEq, Repr

def SymbolTable.new : SymbolTable := ⟨[]⟩

/-- `SymbolTable::add_symbol`. -/
def SymbolTable.addSymbol (t : SymbolTable) (s : Symbol) : SymbolTable :=
  ⟨t.symbols ++ [s]⟩

/-- `SymbolTable::contain_symbol`. -/
def SymbolTable.containSymbol (t : SymbolTable) (name : String) : Bool :=
  t.symbols.any (fun s => s.name = name)

/-- `SymbolTable::symbol_value`: offset of the first symbol with this name. -/
def SymbolTable.symbolValue (t : SymbolTable) (name : String) : Option Nat :=
  match t.symbols.find? (fun s => s.name = name) with
  | none => none
  | some s => s.offset

/-- `SymbolTable::set_symbol_offset`: sets the offset of the first symbol
with this name; a no-op returning `false` when the name is absent. -/
def setOffsetList : List Symbol → String → Nat → List Symbol
  | [], _, _ => []
  | s :: rest, name, off =>
    if s.name = name then { s with offset := some off } :: rest
    else s :: setOffsetList rest name off

def SymbolTable.setSymbolOffset (t : SymbolTable) (name : String) (off : Nat) :
    SymbolTable :=
  ⟨setOffsetList t.symbols name off⟩

/-! ## Instruction AST and encoder (src/assembler/assem_instruction.rs) -/

structure AssemblerInstruction where
  opcode : Option Token := none
  label : Option Token := none
  directive : Option Token := none
  operand1 : Option Token := none
  operand2 : Option Token := none
  operand3 : Option Token := none
  deriving DecidableEq, Repr

/-- Panic markers: `todo!()`, a failed `assert!`, and
`std::process::exit(1)` from the encoder. -/
inductive AsmPanic
  | todoInteger
  | assertFailed
  | exitCalled
  | unwrapFailed
  deriving DecidableEq, Repr

instance {ε α : Type} [DecidableEq ε] [DecidableEq α] :
    DecidableEq (Except ε α) := fun
  | .error e, .error e' =>
    if h : e = e' then .isTrue (h ▸ rfl)
    else .isFalse (fun hh => h (Except.error.inj hh))
  | .error _, .ok _ => .isFalse Except.noConfusion
  | .ok _, .error _ => .isFalse Except.noConfusion
  | .ok a, .ok a' =>
    if h : a = a' then .isTrue (h ▸ rfl)
    else .isFalse (fun hh => h (Except.ok.inj hh))

namespace AssemblerInstruction

/-- `AssemblerInstruction::extract_operand`: bytes contributed by one
operand token.  `.error .exitCalled` models `std::process::exit(1)` when a
non-operand token sits in an operand slot. -/
def extractOperand (t : Token) (tbl : SymbolTable) :
    Except AsmPanic (List Nat) :=
  match t with
  | .Register regNum => .ok [regNum]
  | .IntegerOperand value => .ok [lo16 value / 256, lo16 value % 256]
  | .LabelUsage name =>
    match tbl.symbolValue name with
    | some value => .ok [value / 256 % 256, value % 256]
    | none => .ok []          -- eprintln! warning, no bytes emitted
  | _ => .error .exitCalled

/-- Bytes of one (possibly absent) operand slot: the `.flatten()` in the
source skips absent slots. -/
def slotBytes (t : Option Token) (tbl : SymbolTable) :
    Except AsmPanic (List Nat) :=
  match t with
  | none => .ok []
  | some tok => extractOperand tok tbl

/-- The trailing `while results.len() < 4 {{ results.push(0); }}`. -/
def padTo4 (l : List Nat) : List Nat := l ++ List.replicate (4 - l.length) 0

/-- `AssemblerInstruction::to_bytes`: opcode byte, operand bytes in
declaration order, zero padding while shorter than four bytes. -/
def toBytes (i : AssemblerInstruction) (tbl : SymbolTable) :
    Except AsmPanic (List Nat) :=
  match i.opcode with
  | some (.Op code) => do
    let b1 ← slotBytes i.operand1 tbl
    let b2 ← slotBytes i.operand2 tbl
    let b3 ← slotBytes i.operand3 tbl
    return padTo4 ([code.toByte] ++ b1 ++ b2 ++ b3)
  | _ => .error .exitCalled

/-- `contain_operands`. -/
def containOperands (i : AssemblerInstruction) : Bool :=
  i.operand1.isSome || i.operand2.isSome || i.operand3.isSome

/-- `is_label_declaration`. -/
def isLabelDeclaration (i : AssemblerInstruction) : Bool :=
  match i.label with
  | some (.LabelDeclaration _) => true
  | _ => false

/-- `is_directive`. -/
def isDirective (i : AssemblerInstruction) : Bool := i.directive.isSome

/-- `is_opcode`. -/
def isOpcode (i : AssemblerInstruction) : Bool := i.opcode.isSome

/-- `get_label_declaration_name`: `assert!(self.label.is_some())` then
match.  The assertion failure is a panic. -/
def getLabelDeclarationName (i : AssemblerInstruction) :
    Except AsmPanic (Option String) :=
  match i.label with
  | none => .error .assertFailed
  | some (.LabelDeclaration name) => .ok (some name)
  | some _ => .ok none

/-- `get_directive_name`: `assert!(self.directive.is_some())` then match. -/
def getDirectiveName (i : AssemblerInstruction) :
    Except AsmPanic (Option String) :=
  match i.directive with
  | none => .error .assertFailed
  | some (.Directive name) => .ok (some name)
  | some _ => .ok none

/-- `get_string_constant`: `assert!(self.operand1.is_some())` then match. -/
def getStringConstant (i : AssemblerInstruction) :
    Except AsmPanic (Option String) :=
  match i.operand1 with
  | none => .error .assertFailed
  | some (.StringOperand value) => .ok (some value)
  | some _ => .ok none

end AssemblerInstruction

/-! ## Parser (src/assembler/token.rs, assem_instruction.rs, program.rs)

The nom combinators are embedded over `List Char`.  A parser returns
`.ok none` on a recoverable parse failure (nom `Err::Error`, which `alt`
backtracks over) and `.error _` when the Rust code would panic
(`parse::<u8>().unwrap()` on an oversized literal).  Character classes are
the ASCII fragment of nom's Unicode classes; every input appearing in a
theorem below is ASCII. -/

def P (α : Type) : Type := List Char → Except AsmPanic (Option (α × List Char))

instance : Monad P where
  pure a := fun inp => .ok (some (a, inp))
  bind p f := fun inp =>
    match p inp with
    | .error e => .error e
    | .ok none => .ok none
    | .ok (some (a, rest)) => f a rest

/-- A recoverable parse failure. -/
def pFail : P α := fun _ => .ok none

/-- A panic inside a parser (an `unwrap` on a failed conversion). -/
def pPanic : P α := fun _ => .error .unwrapFailed

/-- nom `alt` of two parsers: try the second on recoverable failure. -/
def pAlt (p q : P α) : P α := fun inp =>
  match p inp with
  | .ok none => q inp
  | r => r

/-- nom `opt`: never fails, backtracks wholly on failure. -/
def pOpt (p : P α) : P (Option α) := fun inp =>
  match p inp with
  | .error e => .error e
  | .ok none => .ok (some (none, inp))
  | .ok (some (a, rest)) => .ok (some (some a, rest))

/-- nom `tag`: match an exact string. -/
def pTag (s : String) : P (List Char) := fun inp =>
  let t := s.toList
  if inp.take t.length = t then .ok (some (t, inp.drop t.length)) else .ok none

/-- Longest prefix satisfying `pred`, with the rest. -/
def spanList (pred : Char → Bool) : List Char → List Char × List Char
  | [] => ([], [])
  | c :: rest =>
    if pred c then
      let (tok, rem) := spanList pred rest
      (c :: tok, rem)
    else ([], c :: rest)

/-- nom `take_while1`-style class parsers (`alpha1`, `digit1`, ...):
one or more characters of the class. -/
def pClass1 (pred : Char → Bool) : P (List Char) := fun inp =>
  match spanList pred inp with
  | ([], _) => .ok none
  | (tok, rest) => .ok (some (tok, rest))

/-- Zero or more characters of the class (`multispace0`). -/
def pClass0 (pred : Char → Bool) : P (List Char) := fun inp =>
  let (tok, rest) := spanList pred inp
  .ok (some (tok, rest))

/-- nom `take_until`: consume up to the first occurrence of the tag,
failing if it never occurs. -/
def takeUntilList (t : List Char) : List Char → Option (List Char × List Char)
  | [] => if t = [] then some ([], []) else none
  | c :: rest =>
    if (c :: rest).take t.length = t then some ([], c :: rest)
    else
      match takeUntilList t rest with
      | some (pre, post) => some (c :: pre, post)
      | none => none

def pTakeUntil (s : String) : P (List Char) := fun inp =>
  match takeUntilList s.toList inp with
  | some (pre, post) => .ok (some (pre, post))
  | none => .ok none

def isAsciiAlphaChar (c : Char) : Bool :=
  ('a' ≤ c && c ≤ 'z') || ('A' ≤ c && c ≤ 'Z')

def isAsciiDigitChar (c : Char) : Bool := '0' ≤ c && c ≤ '9'

def isAsciiAlphanumChar (c : Char) : Bool :=
  isAsciiAlphaChar c || isAsciiDigitChar c

def isMultispaceChar (c : Char) : Bool :=
  c = ' ' || c = '\t' || c = '\r' || c = '\n'

def alpha1 : P (List Char) := pClass1 isAsciiAlphaChar
def alphanumeric1 : P (List Char) := pClass1 isAsciiAlphanumChar
def digit1 : P (List Char) := pClass1 isAsciiDigitChar
def multispace1 : P (List Char) := pClass1 isMultispaceChar
def multispace0 : P (List Char) := pClass0 isMultispaceChar

/-- Decimal value of a digit string (`str::parse` on digits). -/
def natOfDigits (ds : List Char) : Nat :=
  ds.foldl (fun a c => a * 10 + (c.toNat - 48)) 0

def lowerString (cs : List Char) : String := String.mk (cs.map Char.toLower)

/-- `parse_str_operand`: `tuple((tag("'"), take_until("'"), tag("'")))`. -/
def parseStrOperand : P Token := do
  let _ ← pTag "'"
  let tok ← pTakeUntil "'"
  let _ ← pTag "'"
  pure (.StringOperand (String.mk tok))

/-- `parse_label_declaration`: `terminated(alphanumeric1, tag(":"))`. -/
def parseLabelDeclaration : P Token := do
  let tok ← alphanumeric1
  let _ ← pTag ":"
  pure (.LabelDeclaration (String.mk tok))

/-- `parse_label_usage`: `preceded(tag("@"), alphanumeric1)`. -/
def parseLabelUsage : P Token := do
  let _ ← pTag "@"
  let tok ← alphanumeric1
  pure (.LabelUsage (String.mk tok))

/-- `parse_directive`: `preceded(tag("."), alpha1)` (no case folding). -/
def parseDirective : P Token := do
  let _ ← pTag "."
  let tok ← alpha1
  pure (.Directive (String.mk tok))

/-- `parse_opcode`: `alphanumeric1` lowercased, then the mnemonic table. -/
def parseOpcode : P Token := do
  let tok ← alphanumeric1
  pure (.Op (Opcode.fromMnemonic (lowerString tok)))

/-- `parse_register`: `preceded(tag("$"), digit1)` then
`parse::<u8>().unwrap()` — the unwrap panics above 255. -/
def parseRegister : P Token := do
  let _ ← pTag "$"
  let tok ← digit1
  let n := natOfDigits tok
  if n < 256 then pure (.Register n) else pPanic

/-- `parse_int_operand`: `preceded(tag("#"), digit1)` then
`parse::<i32>().unwrap()` — the unwrap panics above `i32::MAX`. -/
def parseIntOperand : P Token := do
  let _ ← pTag "#"
  let tok ← digit1
  let n := natOfDigits tok
  if n ≤ 2 ^ 31 - 1 then pure (.IntegerOperand (n : Int)) else pPanic

/-- One optional operand of grammar form 3/4:
`opt(preceded(multispace1, alt((parse_register, parse_int_operand))))`. -/
def pOperandSlot : P (Option Token) :=
  pOpt (do
    let _ ← multispace1
    pAlt parseRegister parseIntOperand)

/-- `AssemblerInstruction::parse`, form 1: `<opcode> <label_usage>`. -/
def instrForm1 : P AssemblerInstruction := do
  let opcode ← parseOpcode
  let _ ← multispace1
  let label ← parseLabelUsage
  let _ ← pOpt (pTag "\n")
  pure { opcode := some opcode, label := some label }

/-- Form 2: `<label_decl> <directive> <string>`. -/
def instrForm2 : P AssemblerInstruction := do
  let label ← parseLabelDeclaration
  let _ ← multispace1
  let directive ← parseDirective
  let _ ← multispace1
  let tok ← parseStrOperand
  let _ ← pOpt (pTag "\n")
  pure { label := some label, directive := some directive, operand1 := some tok }

/-- Form 3: `[label_decl] <opcode> [op] [op] [op]`. -/
def instrForm3 : P AssemblerInstruction := do
  let label ← pOpt parseLabelDeclaration
  let _ ← multispace0
  let opcode ← parseOpcode
  let tok1 ← pOperandSlot
  let tok2 ← pOperandSlot
  let tok3 ← pOperandSlot
  let _ ← pOpt (pTag "\n")
  pure { opcode := some opcode, label := label,
         operand1 := tok1, operand2 := tok2, operand3 := tok3 }

/-- Form 4: `<directive> [op] [op] [op]`. -/
def instrForm4 : P AssemblerInstruction := do
  let directive ← parseDirective
  let tok1 ← pOperandSlot
  let tok2 ← pOperandSlot
  let tok3 ← pOperandSlot
  let _ ← pOpt (pTag "\n")
  pure { directive := some directive,
         operand1 := tok1, operand2 := tok2, operand3 := tok3 }

/-- The four-way `alt` of `AssemblerInstruction::parse`, in source order. -/
def instrParse : P AssemblerInstruction :=
  pAlt instrForm1 (pAlt instrForm2 (pAlt instrForm3 instrForm4))

structure Program where
  instructions : List AssemblerInstruction
  deriving DecidableEq, Repr

/-- nom `many1`, fuelled (each successful step of `instrParse` consumes at
least one character, so fuel `inp.length + 1` never runs out). -/
def pMany1Fuel (p : P α) : Nat → List Char →
    Except AsmPanic (Option (List α × List Char))
  | 0, _ => .ok none
  | fuel + 1, inp =>
    match p inp with
    | .error e => .error e
    | .ok none => .ok none
    | .ok (some (a, rest)) =>
      match pMany1Fuel p fuel rest with
      | .error e => .error e
      | .ok none => .ok (some ([a], rest))
      | .ok (some (as, rest2)) => .ok (some (a :: as, rest2))

/-- `Program::parse`: `many1(AssemblerInstruction::parse)`. -/
def Program.parse (s : String) :
    Except AsmPanic (Option (Program × List Char)) :=
  match pMany1Fuel instrParse (s.toList.length + 1) s.toList with
  | .error e => .error e
  | .ok none => .ok none
  | .ok (some (is, rest)) => .ok (some (⟨is⟩, rest))

/-! ## Assembler (src/assembler/mod.rs, src/error.rs) -/

/-- `PIE_HEADER_PREFIX`. -/
def pieHeaderMagic : List Nat := [45, 50, 49, 45]

/-- `PIE_HEADER_LENGTH`. -/
def pieHeaderLen : Nat := 64

inductive AssemblerError
  | InsufficientSections
  | ParsingError
  | NoSegmentDeclarationFound (idx : Nat)
  | StringConstantDeclaredWithoutLabel (idx : Nat)
  | SymbolAlreadyDeclared
  | UnknownDirectiveFound (name : String)
  deriving DecidableEq, Repr

inductive AssemblerPhase
  | First
  | Second
  deriving DecidableEq, Repr

inductive AssemblerSection
  | Data (start : Option Nat)
  | Code (start : Option Nat)
  | Unknown
  deriving DecidableEq, Repr

/-- `impl From<&str> for AssemblerSection`. -/
def AssemblerSection.fromName (name : String) : AssemblerSection :=
  match name with
  | "data" => .Data none
  | "code" => .Code none
  | _ => .Unknown

structure Assembler where
  phase : AssemblerPhase
  symbols : SymbolTable
  ro : List Nat
  bytecode : List Nat
  roOffset : Nat
  sections : List AssemblerSection
  currSection : Option AssemblerSection
  currInstruction : Nat
  errors : List AssemblerError
  deriving DecidableEq, Repr

/-- `Assembler::new`. -/
def Assembler.new : Assembler :=
  { phase := .First, symbols := SymbolTable.new, ro := [], bytecode := []
    roOffset := 0, sections := [], currSection := none
    currInstruction := 0, errors := [] }

/-- `str::as_bytes`: the UTF-8 encoding of a string. -/
def utf8CharBytes (c : Char) : List Nat :=
  let n := c.toNat
  if n < 128 then [n]
  else if n < 2048 then [192 + n / 64, 128 + n % 64]
  else if n < 65536 then [224 + n / 4096, 128 + n / 64 % 64, 128 + n % 64]
  else [240 + n / 262144, 128 + n / 4096 % 64, 128 + n / 64 % 64, 128 + n % 64]

def utf8Bytes (s : String) : List Nat := (s.toList.map utf8CharBytes).flatten

namespace Assembler

/-- `process_section_header`: unknown names are announced and ignored;
known ones are appended to `sections` and become current. -/
def processSectionHeader (a : Assembler) (name : String) : Assembler :=
  let sec := AssemblerSection.fromName name
  if sec = .Unknown then a
  else { a with sections := a.sections ++ [sec], currSection := some sec }

/-- `handle_asciiz`: no-op outside the first phase; otherwise append the
string's bytes plus a zero terminator to `ro`, having first tried to set
the accompanying label's offset to the current `ro_offset`. -/
def handleAsciiz (a : Assembler) (i : AssemblerInstruction) :
    Option AsmPanic × Assembler :=
  if a.phase ≠ .First then (none, a)
  else
    match i.getStringConstant with
    | .error e => (some e, a)
    | .ok none => (none, a)
    | .ok (some str) =>
      match i.getLabelDeclarationName with
      | .error e => (some e, a)
      | .ok olabel =>
        let a1 :=
          match olabel with
          | some name =>
            { a with symbols := a.symbols.setSymbolOffset name a.roOffset }
          | none => a
        let bs := utf8Bytes str
        (none, { a1 with ro := a1.ro ++ bs ++ [0]
                         roOffset := a1.roOffset + bs.length + 1 })

/-- `process_directive`: data directives (with operands) dispatch by name
(`integer` is `todo!()`); operand-less directives are section headers. -/
def processDirective (a : Assembler) (i : AssemblerInstruction) :
    Option AsmPanic × Assembler :=
  match i.getDirectiveName with
  | .error e => (some e, a)
  | .ok none => (some .unwrapFailed, a)
  | .ok (some name) =>
    if i.containOperands then
      match name with
      | "asciiz" => a.handleAsciiz i
      | "integer" => (some .todoInteger, a)
      | _ =>
        (none, { a with errors := a.errors ++ [.UnknownDirectiveFound name] })
    else (none, a.processSectionHeader name)

/-- `process_label_declaration`: reject duplicates, otherwise add a fresh
symbol (whose offset is unset). -/
def processLabelDeclaration (a : Assembler) (i : AssemblerInstruction) :
    Option AsmPanic × Assembler :=
  match i.getLabelDeclarationName with
  | .error e => (some e, a)
  | .ok none => (some .unwrapFailed, a)
  | .ok (some name) =>
    if a.symbols.containSymbol name then
      (none, { a with errors := a.errors ++ [.SymbolAlreadyDeclared] })
    else
      (none, { a with symbols := a.symbols.addSymbol (Symbol.new name .Label) })

/-- One iteration of the `process_first_phase` loop. -/
def firstPhaseStep (a : Assembler) (i : AssemblerInstruction) :
    Option AsmPanic × Assembler :=
  let r := if i.isDirective then a.processDirective i else (none, a)
  match r with
  | (some e, a1) => (some e, a1)
  | (none, a1) =>
    let r2 :=
      match a1.currSection with
      | none =>
        (none, { a1 with
                   errors := a1.errors
                     ++ [.NoSegmentDeclarationFound a1.currInstruction] })
      | some _ =>
        if i.isLabelDeclaration then a1.processLabelDeclaration i
        else (none, a1)
    match r2 with
    | (some e, a2) => (some e, a2)
    | (none, a2) => (none, { a2 with currInstruction := a2.currInstruction + 1 })

/-- The `process_first_phase` loop over the instruction list; the phase
becomes `Second` after the walk. -/
def firstPhaseList : Assembler → List AssemblerInstruction →
    Option AsmPanic × Assembler
  | a, [] => (none, { a with phase := .Second })
  | a, i :: rest =>
    match a.firstPhaseStep i with
    | (some e, a1) => (some e, a1)
    | (none, a1) => firstPhaseList a1 rest

/-- `process_first_phase`. -/
def processFirstPhase (a : Assembler) (p : Program) :
    Option AsmPanic × Assembler :=
  firstPhaseList a p.instructions

/-- One iteration of the `process_second_phase` loop: emit four bytes for
opcode instructions, re-visit directives. -/
def secondPhaseStep (a : Assembler) (i : AssemblerInstruction) :
    Option AsmPanic × List Nat × Assembler :=
  let r : Option AsmPanic × List Nat :=
    if i.isOpcode then
      match i.toBytes a.symbols with
      | .error e => (some e, [])
      | .ok bs => (none, bs)
    else (none, [])
  match r with
  | (some e, bs) => (some e, bs, a)
  | (none, bs) =>
    let r2 := if i.isDirective then a.processDirective i else (none, a)
    match r2 with
    | (some e, a1) => (some e, bs, a1)
    | (none, a1) => (none, bs, { a1 with currInstruction := a1.currInstruction + 1 })

/-- The `process_second_phase` loop body. -/
def secondPhaseList : Assembler → List AssemblerInstruction →
    Option AsmPanic × List Nat × Assembler
  | a, [] => (none, [], a)
  | a, i :: rest =>
    match a.secondPhaseStep i with
    | (some e, bs, a1) => (some e, bs, a1)
    | (none, bs, a1) =>
      match secondPhaseList a1 rest with
      | (p, bs2, a2) => (p, bs ++ bs2, a2)

/-- `process_second_phase`: reset the instruction index, walk again. -/
def processSecondPhase (a : Assembler) (p : Program) :
    Option AsmPanic × List Nat × Assembler :=
  secondPhaseList { a with currInstruction := 0 } p.instructions

/-- Little-endian bytes of `n as u32` (`u32::to_le_bytes`). -/
def le32Bytes (n : Nat) : List Nat :=
  [n % 256, n / 256 % 256, n / 65536 % 256, n / 16777216 % 256]

/-- `write_pie_header`: 64 bytes, magic then little-endian read-only
length then zero padding. -/
def writePieHeader (a : Assembler) : List Nat :=
  pieHeaderMagic ++ le32Bytes (a.ro.length % 2 ^ 32) ++ List.replicate 56 0

inductive AsmOutcome
  | ok (bytes : List Nat)
  | err (errs : List AssemblerError)
  | panicked (k : AsmPanic)
  deriving DecidableEq, Repr

/-- The part of `Assembler::assemble` after parsing: pass 1, the error and
section checks, pass 2, header emission, concatenation.  Note the emitted
image is header ++ code only — the `ro` bytes are never appended. -/
def assembleAst (a : Assembler) (prog : Program) : AsmOutcome × Assembler :=
  match a.processFirstPhase prog with
  | (some e, a1) => (.panicked e, a1)
  | (none, a1) =>
    if a1.errors ≠ [] then (.err a1.errors, a1)
    else if a1.sections.length ≠ 2 then
      let a2 := { a1 with errors := a1.errors ++ [.InsufficientSections] }
      (.err a2.errors, a2)
    else
      match a1.processSecondPhase prog with
      | (some e, _, a2) => (.panicked e, a2)
      | (none, body, a2) => (.ok (a2.writePieHeader ++ body), a2)

/-- `Assembler::assemble`: parse, `assert_eq!(remainder, "")`, then
`assembleAst`.  A nom error yields `Err([ParsingError])`. -/
def assemble (a : Assembler) (raw : String) : AsmOutcome × Assembler :=
  match Program.parse raw with
  | .error e => (.panicked e, a)
  | .ok none => (.err [.ParsingError], a)
  | .ok (some (prog, rem)) =>
    if rem ≠ [] then (.panicked .assertFailed, a)
    else a.assembleAst prog

end Assembler

/-! ## Virtual machine (src/vm.rs)

`VM` keeps the fields the claims touch; the uuid, timestamps and cluster
fields are omitted.  `output` logs the byte strings printed by `PRTS`
(the `print!("{}", s)` on its success path).  Panics (out-of-bounds
indexing, `unwrap`, divide-by-zero) surface as `StepRes.panicked`
together with the state reached at the point of the panic. -/

/-- A UTF-8 continuation byte. -/
def isUtf8Cont (b : Nat) : Bool := 128 ≤ b && b ≤ 191

/-- `std::str::from_utf8` succeeds exactly on valid UTF-8 (RFC 3629:
no overlong forms, no surrogates, max U+10FFFF). -/
def isUtf8 : List Nat → Bool
  | [] => true
  | b0 :: t0 =>
    if b0 ≤ 127 then isUtf8 t0
    else
      match t0 with
      | [] => false
      | b1 :: t1 =>
        if 194 ≤ b0 && b0 ≤ 223 then isUtf8Cont b1 && isUtf8 t1
        else
          match t1 with
          | [] => false
          | b2 :: t2 =>
            if b0 = 224 then
              (160 ≤ b1 && b1 ≤ 191) && isUtf8Cont b2 && isUtf8 t2
            else if (225 ≤ b0 && b0 ≤ 236) || b0 = 238 || b0 = 239 then
              isUtf8Cont b1 && isUtf8Cont b2 && isUtf8 t2
            else if b0 = 237 then
              (128 ≤ b1 && b1 ≤ 159) && isUtf8Cont b2 && isUtf8 t2
            else
              match t2 with
              | [] => false
              | b3 :: t3 =>
                if b0 = 240 then
                  (144 ≤ b1 && b1 ≤ 191) && isUtf8Cont b2 && isUtf8Cont b3
                    && isUtf8 t3
                else if 241 ≤ b0 && b0 ≤ 243 then
                  isUtf8Cont b1 && isUtf8Cont b2 && isUtf8Cont b3 && isUtf8 t3
                else if b0 = 244 then
                  (128 ≤ b1 && b1 ≤ 143) && isUtf8Cont b2 && isUtf8Cont b3
                    && isUtf8 t3
                else false

inductive VMEventType
  | start
  | stop
  | crash
  deriving DecidableEq, Repr

structure VM where
  registers : List Int
  floatRegisters : List Rat
  pc : Nat
  program : List Nat
  remainder : Nat
  equalFlag : Bool
  heap : List Nat
  roData : List Nat
  events : List VMEventType
  output : List (List Nat)
  deriving DecidableEq, Repr

/-- `VM::new` (the claim-relevant fields; note `pc` starts at 65). -/
def VM.new : VM :=
  { registers := List.replicate 32 0, floatRegisters := List.replicate 32 0
    pc := 65, program := [], remainder := 0, equalFlag := false
    heap := [], roData := [], events := [], output := [] }

/-- In-VM computations: `none` in the first component models a panic, the
second component is the state reached so far. -/
def VmM (α : Type) : Type := VM → Option α × VM

instance : Monad VmM where
  pure a := fun vm => (some a, vm)
  bind x f := fun vm =>
    match x vm with
    | (some a, vm1) => f a vm1
    | (none, vm1) => (none, vm1)

/-- `next_8_bits`: read the byte at `pc` (panicking when out of bounds)
and advance `pc` by one. -/
def next8M : VmM Nat := fun vm =>
  match vm.program.get? vm.pc with
  | some b => (some b, { vm with pc := vm.pc + 1 })
  | none => (none, vm)

/-- `next_16_bits`: big-endian pair of bytes at `pc`, `pc + 1`. -/
def next16M : VmM Nat := fun vm =>
  match vm.program.get? vm.pc with
  | none => (none, vm)
  | some hi =>
    match vm.program.get? (vm.pc + 1) with
    | none => (none, vm)
    | some lo => (some (hi * 256 + lo), { vm with pc := vm.pc + 2 })

/-- `self.registers[idx]` (panics when `idx ≥ 32`). -/
def regReadM (idx : Nat) : VmM Int := fun vm =>
  match vm.registers.get? idx with
  | some v => (some v, vm)
  | none => (none, vm)

/-- `self.registers[idx] = v`. -/
def regWriteM (idx : Nat) (v : Int) : VmM Unit := fun vm =>
  if idx < vm.registers.length then
    (some (), { vm with registers := vm.registers.set idx v })
  else (none, vm)

def fregReadM (idx : Nat) : VmM Rat := fun vm =>
  match vm.floatRegisters.get? idx with
  | some v => (some v, vm)
  | none => (none, vm)

def fregWriteM (idx : Nat) (v : Rat) : VmM Unit := fun vm =>
  if idx < vm.floatRegisters.length then
    (some (), { vm with floatRegisters := vm.floatRegisters.set idx v })
  else (none, vm)

def setFlagM (b : Bool) : VmM Unit := fun vm =>
  (some (), { vm with equalFlag := b })

def setPcM (n : Nat) : VmM Unit := fun vm => (some (), { vm with pc := n })

def setRemainderM (n : Nat) : VmM Unit := fun vm =>
  (some (), { vm with remainder := n })

/-- Panic unless the condition holds (`/` by zero, slice bounds, ...). -/
def checkM (b : Bool) : VmM Unit := fun vm =>
  (if b then some () else none, vm)

/-- `Vec::resize(n, 0)`. -/
def resizeList (l : List Nat) (n : Nat) : List Nat :=
  if n ≤ l.length then l.take n else l ++ List.replicate (n - l.length) 0

/-- `f64::EPSILON` is exactly `2^-52`. -/
def f64Eps : Rat := 1 / 2 ^ 52

/-- `LOAD`: register byte, 16-bit immediate, `number as i32`. -/
def armLoad : VmM Unit := do
  let r ← next8M
  let n ← next16M
  regWriteM r (n : Int)

/-- `ADD`/`SUB`/`MUL`: read the registers named by the first two operand
bytes, write the wrapped result to the register named by the third. -/
def armIntBin (f : Int → Int → Int) : VmM Unit := do
  let b1 ← next8M
  let r1 ← regReadM b1
  let b2 ← next8M
  let r2 ← regReadM b2
  let b3 ← next8M
  regWriteM b3 (wrap32 (f r1 r2))

/-- `DIV`: Rust `/`-`%` (truncated), panicking on division by zero or on
`i32::MIN / -1`; the remainder word receives `(r1 % r2) as u32`. -/
def armDiv : VmM Unit := do
  let b1 ← next8M
  let r1 ← regReadM b1
  let b2 ← next8M
  let r2 ← regReadM b2
  let b3 ← next8M
  checkM (¬(r2 = 0 ∨ (r1 = -(2 ^ 31) ∧ r2 = -1)))
  regWriteM b3 (r1.tdiv r2)
  setRemainderM ((r1.tmod r2) % 2 ^ 32).toNat

/-- `JMP`: absolute, `pc ← registers[r] as usize`. -/
def armJmp : VmM Unit := do
  let b ← next8M
  let t ← regReadM b
  setPcM (usizeOfI32 t)

/-- `JMPF`: `pc += target as usize` (wrapping at 2^64 in release mode). -/
def armJmpf : VmM Unit := do
  let b ← next8M
  let t ← regReadM b
  fun vm => (some (), { vm with pc := (vm.pc + usizeOfI32 t) % 2 ^ 64 })

/-- `JMPB`: `pc -= target as usize` (wrapping). -/
def armJmpb : VmM Unit := do
  let b ← next8M
  let t ← regReadM b
  fun vm => (some (), { vm with pc := (vm.pc + 2 ^ 64 - usizeOfI32 t) % 2 ^ 64 })

/-- `JMPE` with the flag set: `pc ← registers[r] as usize`. -/
def armJmpeTaken : VmM Unit := do
  let b ← next8M
  let t ← regReadM b
  setPcM (usizeOfI32 t)

/-- `EQ`/`NEQ`/`GT`/`GTE`/`LT`/`LTE`: compare the registers named by the
first two operand bytes, set the flag, discard the third byte. -/
def armIntCmp (f : Int → Int → Bool) : VmM Unit := do
  let b1 ← next8M
  let r1 ← regReadM b1
  let b2 ← next8M
  let r2 ← regReadM b2
  setFlagM (f r1 r2)
  let _ ← next8M
  pure ()

/-- `ALOC`: grow the heap by `registers[r]` (via `as i32` / `as usize`
casts and `Vec::resize`); only one operand byte is consumed. -/
def armAloc : VmM Unit := do
  let b ← next8M
  let bytes ← regReadM b
  fun vm =>
    let newEnd := wrap32 (wrap32 (vm.heap.length : Int) + bytes)
    (some (), { vm with heap := resizeList vm.heap (usizeOfI32 newEnd) })

/-- `INC`/`DEC`: adjust the register named by the first operand byte,
then discard two filler bytes. -/
def armIncDec (delta : Int) : VmM Unit := do
  let pos ← next8M
  let v ← regReadM pos
  regWriteM pos (wrap32 (v + delta))
  let _ ← next8M
  let _ ← next8M
  pure ()

/-- `PRTS`: 16-bit offset into `ro_data`; the end of the printed slice is
`position(|&x| x != 0).unwrap()` — the first NON-zero byte of the suffix,
used as an absolute index.  Panics model the slice bounds and the
`unwrap`.  On UTF-8 failure the code prints a diagnostic and no string. -/
def armPrts : VmM Unit := do
  let startOff ← next16M
  let ro ← fun vm => (some vm.roData, vm)
  checkM (decide (startOff ≤ ro.length))
  match (ro.drop startOff).findIdx? (fun x => x != 0) with
  | none => checkM false
  | some endOff => do
    checkM (decide (startOff ≤ endOff ∧ endOff ≤ ro.length))
    let bytes := (ro.take endOff).drop startOff
    if isUtf8 bytes then
      fun vm => (some (), { vm with output := vm.output ++ [bytes] })
    else pure ()

/-- `LOADF64`: `f64::from(imm16)`. -/
def armLoadF64 : VmM Unit := do
  let r ← next8M
  let n ← next16M
  fregWriteM r (n : Rat)

/-- `ADDF64`/`SUBF64`/`MULF64`/`DIVF64` (values modelled exactly). -/
def armFloatBin (f : Rat → Rat → Rat) : VmM Unit := do
  let b1 ← next8M
  let r1 ← fregReadM b1
  let b2 ← next8M
  let r2 ← fregReadM b2
  let b3 ← next8M
  fregWriteM b3 (f r1 r2)

/-- `EQF64` ... `LTEF64`: set the flag from a float comparison, discard
the third operand byte. -/
def armFloatCmp (f : Rat → Rat → Bool) : VmM Unit := do
  let b1 ← next8M
  let r1 ← fregReadM b1
  let b2 ← next8M
  let r2 ← fregReadM b2
  setFlagM (f r1 r2)
  let _ ← next8M
  pure ()

/-- `NOP`: three filler bytes. -/
def armNop : VmM Unit := do
  let _ ← next8M
  let _ ← next8M
  let _ ← next8M
  pure ()

/-- `SHL`: `wrapping_shl` (shift count taken mod 32); count 0 means 16. -/
def armShl : VmM Unit := do
  let rn ← next8M
  let nb ← next8M
  let bits := if nb = 0 then 16 else nb
  let v ← regReadM rn
  regWriteM rn (wrap32 (v * 2 ^ (bits % 32)))
  let _ ← next8M
  pure ()

/-- `SHR`: `wrapping_shr` — arithmetic (sign-extending) right shift for
`i32`, i.e. flooring division by a power of two; count mod 32, 0 ↦ 16. -/
def armShr : VmM Unit := do
  let rn ← next8M
  let nb ← next8M
  let bits := if nb = 0 then 16 else nb
  let v ← regReadM rn
  regWriteM rn (Int.fdiv v (2 ^ (bits % 32)))
  let _ ← next8M
  pure ()

inductive StepRes
  | cont
  | done
  | panicked
  deriving DecidableEq, Repr

def liftArm (m : VmM Unit) (vm : VM) : StepRes × VM :=
  match m vm with
  | (some _, v) => (.cont, v)
  | (none, v) => (.panicked, v)

/-- `execute_instruction`: `Some(1)` (here `.done`) when `pc` runs off
the program or the opcode is unrecognized; `None` (here `.cont`)
otherwise.  `HLT` returns `None` in the source, so the run loop does NOT
stop on it; `JMPE` with a clear flag consumes no operand byte. -/
def execOnce (vm : VM) : StepRes × VM :=
  if vm.pc < vm.program.length then
    let op := Opcode.fromByte (vm.program.getD vm.pc 0)
    let vm1 := { vm with pc := vm.pc + 1 }
    match op with
    | .HLT => (.cont, vm1)
    | .LOAD => liftArm armLoad vm1
    | .ADD => liftArm (armIntBin (· + ·)) vm1
    | .SUB => liftArm (armIntBin (· - ·)) vm1
    | .MUL => liftArm (armIntBin (· * ·)) vm1
    | .DIV => liftArm armDiv vm1
    | .JMP => liftArm armJmp vm1
    | .JMPF => liftArm armJmpf vm1
    | .JMPB => liftArm armJmpb vm1
    | .EQ => liftArm (armIntCmp (fun a b => a = b)) vm1
    | .NEQ => liftArm (armIntCmp (fun a b => a ≠ b)) vm1
    | .GT => liftArm (armIntCmp (fun a b => a > b)) vm1
    | .GTE => liftArm (armIntCmp (fun a b => a ≥ b)) vm1
    | .LT => liftArm (armIntCmp (fun a b => a < b)) vm1
    | .LTE => liftArm (armIntCmp (fun a b => a ≤ b)) vm1
    | .ALOC => liftArm armAloc vm1
    | .INC => liftArm (armIncDec 1) vm1
    | .DEC => liftArm (armIncDec (-1)) vm1
    | .JMPE => if vm1.equalFlag then liftArm armJmpeTaken vm1 else (.cont, vm1)
    | .PRTS => liftArm armPrts vm1
    | .LOADF64 => liftArm armLoadF64 vm1
    | .ADDF64 => liftArm (armFloatBin (· + ·)) vm1
    | .SUBF64 => liftArm (armFloatBin (· - ·)) vm1
    | .MULF64 => liftArm (armFloatBin (· * ·)) vm1
    | .DIVF64 => liftArm (armFloatBin (· / ·)) vm1
    | .EQF64 => liftArm (armFloatCmp (fun a b => |a - b| < f64Eps)) vm1
    | .NEQF64 => liftArm (armFloatCmp (fun a b => |a - b| > f64Eps)) vm1
    | .GTF64 => liftArm (armFloatCmp (fun a b => a > b)) vm1
    | .GTEF64 => liftArm (armFloatCmp (fun a b => a ≥ b)) vm1
    | .LTF64 => liftArm (armFloatCmp (fun a b => a < b)) vm1
    | .LTEF64 => liftArm (armFloatCmp (fun a b => a ≤ b)) vm1
    | .NOP => liftArm armNop vm1
    | .SHL => liftArm armShl vm1
    | .SHR => liftArm armShr vm1
    | _ => (.done, vm1)
  else (.done, vm)

inductive RunRes
  | finished
  | crashed
  | panicked
  | fuelOut
  deriving DecidableEq, Repr

/-- The `while is_done.is_none()` loop of `VM::run`, fuelled. -/
def runLoop : Nat → VM → RunRes × VM
  | 0, vm => (.fuelOut, vm)
  | fuel + 1, vm =>
    match execOnce vm with
    | (.done, vm1) => (.finished, vm1)
    | (.panicked, vm1) => (.panicked, vm1)
    | (.cont, vm1) => runLoop fuel vm1

/-- The `Stop` event push after a normal exit of the run loop. -/
def runFinish : RunRes × VM → RunRes × VM
  | (.finished, vm1) => (.finished, { vm1 with events := vm1.events ++ [.stop] })
  | (r, vm1) => (r, vm1)

/-- `VM::run`: push `Start`; verify the header (panicking on a program
shorter than the sliced ranges, crashing on a bad magic); set
`pc := 64 + starting_offset`; loop; push `Stop` on normal termination.
Note `ro_data` is never populated from the program image. -/
def runFuel (fuel : Nat) (vm : VM) : RunRes × VM :=
  let vm := { vm with events := vm.events ++ [.start] }
  if vm.program.length < 4 then (.panicked, vm)
  else if vm.program.take 4 ≠ pieHeaderMagic then
    (.crashed, { vm with events := vm.events ++ [.crash] })
  else if vm.program.length < 8 then (.panicked, vm)
  else
    let off := ((vm.program.drop 4).take 4).reverse.foldl
      (fun acc b => acc * 256 + b) 0
    runFinish (runLoop fuel { vm with pc := 64 + off })

/-! ## Auxiliary predicates and concrete fixtures used by the theorems -/

/-- Width in code bytes of an encoded operand token. -/
def tokenWidth : Token → Nat
  | .Register _ => 1
  | .IntegerOperand _ => 2
  | _ => 0

def slotWidth : Option Token → Nat
  | none => 0
  | some t => tokenWidth t

/-- An operand slot as grammar forms 3/4 can fill it: absent, a register,
or an integer literal. -/
def isRegOrInt : Option Token → Bool
  | none => true
  | some (.Register _) => true
  | some (.IntegerOperand _) => true
  | _ => false

/-- Operand slots as forms 3/4 fill them: a prefix of register /
integer-literal tokens (the `opt` chain fills left to right). -/
def wfOperands (i : AssemblerInstruction) : Bool :=
  isRegOrInt i.operand1 && isRegOrInt i.operand2 && isRegOrInt i.operand3
    && (!i.operand2.isSome || i.operand1.isSome)
    && (!i.operand3.isSome || i.operand2.isSome)

/-- The shape of instructions produced by the four grammar alternatives of
`AssemblerInstruction::parse` (forms 1-4, in that order). -/
def wfInstr (i : AssemblerInstruction) : Bool :=
  (match i.opcode, i.label, i.directive with
     | some (.Op _), some (.LabelUsage _), none =>
       i.operand1.isNone && i.operand2.isNone && i.operand3.isNone
     | _, _, _ => false)
  || (match i.opcode, i.label, i.directive, i.operand1 with
     | none, some (.LabelDeclaration _), some (.Directive _),
         some (.StringOperand _) =>
       i.operand2.isNone && i.operand3.isNone
     | _, _, _, _ => false)
  || (match i.opcode, i.label, i.directive with
     | some (.Op _), none, none => wfOperands i
     | some (.Op _), some (.LabelDeclaration _), none => wfOperands i
     | _, _, _ => false)
  || (match i.opcode, i.label, i.directive with
     | none, none, some (.Directive _) => wfOperands i
     | _, _, _ => false)

/-- Shape facts that hold for every instruction the parser emits and
that rule out the assembler's incidental panics (failed `assert!`s and
`unwrap`s) in pass 1: a filled directive slot holds a `Directive` token,
an instruction with operands fills `operand1` first, and a string
constant in `operand1` comes with a label. -/
def noPanicShape (i : AssemblerInstruction) : Bool :=
  (match i.directive with
   | none => true
   | some (.Directive _) => true
   | some _ => false)
  && (!i.containOperands || i.operand1.isSome)
  && (match i.operand1 with
      | some (.StringOperand _) => i.label.isSome
      | _ => true)

/-- All 49 opcodes, in declaration order. -/
def allOpcodes : List Opcode :=
  [.LOAD, .ADD, .SUB, .MUL, .DIV, .HLT, .JMP, .JMPF, .JMPB,
   .EQ, .NEQ, .GTE, .LTE, .LT, .GT, .JMPE, .NOP, .ALOC, .INC, .DEC,
   .DJMPE, .IGL, .PRTS,
   .LOADF64, .ADDF64, .SUBF64, .MULF64, .DIVF64,
   .EQF64, .NEQF64, .GTF64, .GTEF64, .LTF64, .LTEF64,
   .SHL, .SHR, .AND, .OR, .XOR, .NOT, .LUI, .CLOOP, .LOOP,
   .LOADM, .SETM, .PUSH, .POP, .CALL, .RET]

/-- Opcodes whose execution advances the program counter by exactly
4 bytes (1 opcode byte + 3 consumed operand bytes). -/
def fourBytePcOps : List Opcode :=
  [.LOAD, .ADD, .SUB, .MUL, .DIV, .EQ, .NEQ, .GT, .GTE, .LT, .LTE,
   .INC, .DEC, .NOP, .SHL, .SHR,
   .LOADF64, .ADDF64, .SUBF64, .MULF64, .DIVF64,
   .EQF64, .NEQF64, .GTF64, .GTEF64, .LTF64, .LTEF64]

/-- Opcodes that fall into the `_` arm of `execute_instruction`
("Unrecognized opcode found! Terminating!"): PC has advanced only past
the opcode byte. -/
def unimplementedOps : List Opcode :=
  [.DJMPE, .IGL, .AND, .OR, .XOR, .NOT, .LUI, .CLOOP, .LOOP,
   .LOADM, .SETM, .PUSH, .POP, .CALL, .RET]

/-- Modelled from the spec: the register file after an ADD that reads the
claimed operand order `dst, src1, src2` — the destination is named by the
FIRST operand byte, the sources by the second and third.  Used only to
exhibit that the code disagrees with this reading. -/
def addDstFirstRegisters (vm : VM) (b1 b2 b3 : Nat) : List Int :=
  vm.registers.set b1
    (wrap32 (vm.registers.getD b2 0 + vm.registers.getD b3 0))

/-- `x` never changes `roData` (regardless of panicking). -/
def PreservesRo (x : VmM α) : Prop :=
  ∀ vm, ((x vm).2).roData = vm.roData

/-- On success, `x` advances the program counter by exactly `k`. -/
def AdvPc (k : Nat) (x : VmM α) : Prop :=
  ∀ vm, ((x vm).1).isSome → ((x vm).2).pc = vm.pc + k

/-! Concrete fixtures.  `testRegisters` mirrors `VM::get_test_vm`
(registers 0 and 1 preset to 5 and 10). -/

def testRegisters : List Int := (List.replicate 32 (0 : Int)).set 0 5 |>.set 1 10

/-- A VM about to execute `[ADD, 0, 1, 2]` from the test register file. -/
def addVM : VM :=
  { VM.new with
      registers := testRegisters
      pc := 0
      program := [1, 0, 1, 2] }

/-- The `test_prts_opcode` setup: `ro_data = "Hello\0"`,
program `[21, 0, 0, 0]`, executed from `pc = 0`. -/
def prtsVM : VM :=
  { VM.new with
      pc := 0
      program := [21, 0, 0, 0]
      roData := [72, 101, 108, 108, 111, 0] }

/-- A VM about to execute `[ALOC, 0, 0, 0]` from `pc = 0`. -/
def alocVM : VM := { VM.new with pc := 0, program := [17, 0, 0, 0] }

/-- Spec scenario 1 source. -/
def scen1Src : String := ".data\n.code\nhlt\n"

/-- Spec scenario 2 source. -/
def scen2Src : String := ".data\nhello: .asciiz 'Hello'\n.code\nprts @hello\nhlt\n"

/-- Scenario 2 with the `prts` replaced by nothing — a data constant plus
a lone `hlt` (used to exhibit the image layout). -/
def scen2hltSrc : String := ".data\nhello: .asciiz 'Hello'\n.code\nhlt\n"

/-- The image `Assembler::assemble` actually emits for `scen2Src`:
header (declaring 6 read-only bytes) followed directly by the code bytes;
the `Hello\0` bytes are absent, and `prts` is encoded as byte 22. -/
def scen2Image : List Nat :=
  pieHeaderMagic ++ [6, 0, 0, 0] ++ List.replicate 56 0
    ++ [22, 0, 0, 0, 5, 0, 0, 0]

/-- The instruction list `Program::parse` yields for
`".data\n.code\ntest: inc $0\n"`. -/
def c6Prog : Program :=
  ⟨[{ directive := some (.Directive "data") },
    { directive := some (.Directive "code") },
    { opcode := some (.Op .INC), label := some (.LabelDeclaration "test"),
      operand1 := some (.Register 0) }]⟩

/-- The instruction `AssemblerInstruction::parse` yields for
`"add #1 #2 #3\n"`. -/
def c7Instr : AssemblerInstruction :=
  { opcode := some (.Op .ADD), operand1 := some (.IntegerOperand 1),
    operand2 := some (.IntegerOperand 2), operand3 := some (.IntegerOperand 3) }

/-- A one-instruction program carrying `.integer #1`. -/
def c9Prog : Program :=
  ⟨[{ directive := some (.Directive "integer"),
      operand1 := some (.IntegerOperand 1) }]⟩

/-- `add $0 $1 $2` as the parser produces it. -/
def c7RegInstr : AssemblerInstruction :=
  { opcode := some (.Op .ADD), operand1 := some (.Register 0),
    operand2 := some (.Register 1), operand3 := some (.Register 2) }

/-- The instruction list `Program::parse` yields for `scen2Src`. -/
def scen2Prog : Program :=
  ⟨[{ directive := some (.Directive "data") },
    { label := some (.LabelDeclaration "hello"),
      directive := some (.Directive "asciiz"),
      operand1 := some (.StringOperand "Hello") },
    { directive := some (.Directive "code") },
    { opcode := some (.Op .PRTS), label := some (.LabelUsage "hello") },
    { opcode := some (.Op .HLT) }]⟩

/-- An assembler state as it stands at the start of pass 2 of scenario 2:
phase `Second`, the `Hello\0` constant already in `ro`. -/
def c10Asm : Assembler :=
  { Assembler.new with
      phase := .Second
      ro := [72, 101, 108, 108, 111, 0]
      roOffset := 6 }

/-! ## Lemmas: the VM step never touches `roData` -/

theorem vmm_bind_apply {α β : Type} (x : VmM α) (f : α → VmM β) (vm : VM) :
    (x >>= f) vm =
      match x vm with
      | (some a, vm1) => f a vm1
      | (none, vm1) => (none, vm1) := rfl

theorem preservesRo_bind {α β : Type} {x : VmM α} {f : α → VmM β}
    (hx : PreservesRo x) (hf : ∀ a, PreservesRo (f a)) :
    PreservesRo (x >>= f) := by
  intro vm
  rw [vmm_bind_apply]
  rcases hxe : x vm with ⟨o, vm1⟩
  have h1 : vm1.roData = vm.roData := by
    have h := hx vm; rw [hxe] at h; exact h
  cases o with
  | none => exact h1
  | some a => exact (hf a vm1).trans h1

theorem pure_ro (a : α) : PreservesRo (pure a : VmM α) := fun _ => rfl

theorem next8M_ro : PreservesRo next8M := by
  intro vm; unfold next8M; cases vm.program.get? vm.pc <;> rfl

theorem next16M_ro : PreservesRo next16M := by
  intro vm; unfold next16M
  cases vm.program.get? vm.pc with
  | none => rfl
  | some hi => cases vm.program.get? (vm.pc + 1) <;> rfl

theorem regReadM_ro (idx : Nat) : PreservesRo (regReadM idx) := by
  intro vm; unfold regReadM; cases vm.registers.get? idx <;> rfl

theorem regWriteM_ro (idx : Nat) (v : Int) : PreservesRo (regWriteM idx v) := by
  intro vm; unfold regWriteM; split <;> rfl

theorem fregReadM_ro (idx : Nat) : PreservesRo (fregReadM idx) := by
  intro vm; unfold fregReadM; cases vm.floatRegisters.get? idx <;> rfl

theorem fregWriteM_ro (idx : Nat) (v : Rat) : PreservesRo (fregWriteM idx v) := by
  intro vm; unfold fregWriteM; split <;> rfl

theorem setFlagM_ro (b : Bool) : PreservesRo (setFlagM b) := fun _ => rfl

theorem setPcM_ro (n : Nat) : PreservesRo (setPcM n) := fun _ => rfl

theorem setRemainderM_ro (n : Nat) : PreservesRo (setRemainderM n) := fun _ => rfl

theorem checkM_ro (b : Bool) : PreservesRo (checkM b) := fun _ => rfl

theorem armLoad_ro : PreservesRo armLoad := by
  unfold armLoad
  exact preservesRo_bind next8M_ro fun r =>
    preservesRo_bind next16M_ro fun n => regWriteM_ro r _

theorem armIntBin_ro (f : Int → Int → Int) : PreservesRo (armIntBin f) := by
  unfold armIntBin
  exact preservesRo_bind next8M_ro fun b1 =>
    preservesRo_bind (regReadM_ro b1) fun r1 =>
    preservesRo_bind next8M_ro fun b2 =>
    preservesRo_bind (regReadM_ro b2) fun r2 =>
    preservesRo_bind next8M_ro fun b3 => regWriteM_ro b3 _

theorem armDiv_ro : PreservesRo armDiv := by
  unfold armDiv
  exact preservesRo_bind next8M_ro fun b1 =>
    preservesRo_bind (regReadM_ro b1) fun r1 =>
    preservesRo_bind next8M_ro fun b2 =>
    preservesRo_bind (regReadM_ro b2) fun r2 =>
    preservesRo_bind next8M_ro fun b3 =>
    preservesRo_bind (checkM_ro _) fun _ =>
    preservesRo_bind (regWriteM_ro b3 _) fun _ => setRemainderM_ro _

theorem armJmp_ro : PreservesRo armJmp := by
  unfold armJmp
  exact preservesRo_bind next8M_ro fun b =>
    preservesRo_bind (regReadM_ro b) fun t => setPcM_ro _

theorem armJmpf_ro : PreservesRo armJmpf := by
  unfold armJmpf
  exact preservesRo_bind next8M_ro fun b =>
    preservesRo_bind (regReadM_ro b) fun t => fun _ => rfl

theorem armJmpb_ro : PreservesRo armJmpb := by
  unfold armJmpb
  exact preservesRo_bind next8M_ro fun b =>
    preservesRo_bind (regReadM_ro b) fun t => fun _ => rfl

theorem armJmpeTaken_ro : PreservesRo armJmpeTaken := by
  unfold armJmpeTaken
  exact preservesRo_bind next8M_ro fun b =>
    preservesRo_bind (regReadM_ro b) fun t => setPcM_ro _

theorem armIntCmp_ro (f : Int → Int → Bool) : PreservesRo (armIntCmp f) := by
  unfold armIntCmp
  exact preservesRo_bind next8M_ro fun b1 =>
    preservesRo_bind (regReadM_ro b1) fun r1 =>
    preservesRo_bind next8M_ro fun b2 =>
    preservesRo_bind (regReadM_ro b2) fun r2 =>
    preservesRo_bind (setFlagM_ro _) fun _ =>
    preservesRo_bind next8M_ro fun _ => pure_ro _

theorem armAloc_ro : PreservesRo armAloc := by
  unfold armAloc
  apply preservesRo_bind next8M_ro
  intro b
  apply preservesRo_bind (regReadM_ro b)
  intro bytes
  intro vm
  cases vm
  rfl

theorem armIncDec_ro (d : Int) : PreservesRo (armIncDec d) := by
  unfold armIncDec
  exact preservesRo_bind next8M_ro fun pos =>
    preservesRo_bind (regReadM_ro pos) fun v =>
    preservesRo_bind (regWriteM_ro pos _) fun _ =>
    preservesRo_bind next8M_ro fun _ =>
    preservesRo_bind next8M_ro fun _ => pure_ro _

theorem armPrts_ro : PreservesRo armPrts := by
  unfold armPrts
  apply preservesRo_bind next16M_ro
  intro startOff
  apply preservesRo_bind (fun _ => rfl)
  intro ro
  apply preservesRo_bind (checkM_ro _)
  intro _
  cases (ro.drop startOff).findIdx? (fun x => x != 0) with
  | none => exact checkM_ro _
  | some endOff =>
    apply preservesRo_bind (checkM_ro _)
    intro _
    dsimp only
    split
    · intro vm
      cases vm
      rfl
    · exact pure_ro _

theorem armLoadF64_ro : PreservesRo armLoadF64 := by
  unfold armLoadF64
  exact preservesRo_bind next8M_ro fun r =>
    preservesRo_bind next16M_ro fun n => fregWriteM_ro r _

theorem armFloatBin_ro (f : Rat → Rat → Rat) : PreservesRo (armFloatBin f) := by
  unfold armFloatBin
  exact preservesRo_bind next8M_ro fun b1 =>
    preservesRo_bind (fregReadM_ro b1) fun r1 =>
    preservesRo_bind next8M_ro fun b2 =>
    preservesRo_bind (fregReadM_ro b2) fun r2 =>
    preservesRo_bind next8M_ro fun b3 => fregWriteM_ro b3 _

theorem armFloatCmp_ro (f : Rat → Rat → Bool) : PreservesRo (armFloatCmp f) := by
  unfold armFloatCmp
  exact preservesRo_bind next8M_ro fun b1 =>
    preservesRo_bind (fregReadM_ro b1) fun r1 =>
    preservesRo_bind next8M_ro fun b2 =>
    preservesRo_bind (fregReadM_ro b2) fun r2 =>
    preservesRo_bind (setFlagM_ro _) fun _ =>
    preservesRo_bind next8M_ro fun _ => pure_ro _

theorem armNop_ro : PreservesRo armNop := by
  unfold armNop
  exact preservesRo_bind next8M_ro fun _ =>
    preservesRo_bind next8M_ro fun _ =>
    preservesRo_bind next8M_ro fun _ => pure_ro _

theorem armShl_ro : PreservesRo armShl := by
  unfold armShl
  exact preservesRo_bind next8M_ro fun rn =>
    preservesRo_bind next8M_ro fun nb =>
    preservesRo_bind (regReadM_ro rn) fun v =>
    preservesRo_bind (regWriteM_ro rn _) fun _ =>
    preservesRo_bind next8M_ro fun _ => pure_ro _

theorem armShr_ro : PreservesRo armShr := by
  unfold armShr
  exact preservesRo_bind next8M_ro fun rn =>
    preservesRo_bind next8M_ro fun nb =>
    preservesRo_bind (regReadM_ro rn) fun v =>
    preservesRo_bind (regWriteM_ro rn _) fun _ =>
    preservesRo_bind next8M_ro fun _ => pure_ro _

theorem liftArm_ro (m : VmM Unit) (h : PreservesRo m) (vm : VM) :
    ((liftArm m vm).2).roData = vm.roData := by
  unfold liftArm
  rcases he : m vm with ⟨o, v⟩
  have h1 := h vm; rw [he] at h1
  cases o <;> exact h1

theorem execOnce_ro (vm : VM) : ((execOnce vm).2).roData = vm.roData := by
  unfold execOnce
  split
  · dsimp only
    split
    · rfl
    · exact liftArm_ro _ armLoad_ro _
    · exact liftArm_ro _ (armIntBin_ro _) _
    · exact liftArm_ro _ (armIntBin_ro _) _
    · exact liftArm_ro _ (armIntBin_ro _) _
    · exact liftArm_ro _ armDiv_ro _
    · exact liftArm_ro _ armJmp_ro _
    · exact liftArm_ro _ armJmpf_ro _
    · exact liftArm_ro _ armJmpb_ro _
    · exact liftArm_ro _ (armIntCmp_ro _) _
    · exact liftArm_ro _ (armIntCmp_ro _) _
    · exact liftArm_ro _ (armIntCmp_ro _) _
    · exact liftArm_ro _ (armIntCmp_ro _) _
    · exact liftArm_ro _ (armIntCmp_ro _) _
    · exact liftArm_ro _ (armIntCmp_ro _) _
    · exact liftArm_ro _ armAloc_ro _
    · exact liftArm_ro _ (armIncDec_ro _) _
    · exact liftArm_ro _ (armIncDec_ro _) _
    · split
      · exact liftArm_ro _ armJmpeTaken_ro _
      · rfl
    · exact liftArm_ro _ armPrts_ro _
    · exact liftArm_ro _ armLoadF64_ro _
    · exact liftArm_ro _ (armFloatBin_ro _) _
    · exact liftArm_ro _ (armFloatBin_ro _) _
    · exact liftArm_ro _ (armFloatBin_ro _) _
    · exact liftArm_ro _ (armFloatBin_ro _) _
    · exact liftArm_ro _ (armFloatCmp_ro _) _
    · exact liftArm_ro _ (armFloatCmp_ro _) _
    · exact liftArm_ro _ (armFloatCmp_ro _) _
    · exact liftArm_ro _ (armFloatCmp_ro _) _
    · exact liftArm_ro _ (armFloatCmp_ro _) _
    · exact liftArm_ro _ (armFloatCmp_ro _) _
    · exact liftArm_ro _ armNop_ro _
    · exact liftArm_ro _ armShl_ro _
    · exact liftArm_ro _ armShr_ro _
    · rfl
  · rfl

theorem runLoop_ro (fuel : Nat) (vm : VM) :
    ((runLoop fuel vm).2).roData = vm.roData := by
  induction fuel generalizing vm with
  | zero => rfl
  | succ n ih =>
    unfold runLoop
    rcases he : execOnce vm with ⟨r, vm1⟩
    have h1 : vm1.roData = vm.roData := by
      have h := execOnce_ro vm; rw [he] at h; exact h
    cases r with
    | done => exact h1
    | panicked => exact h1
    | cont => exact (ih vm1).trans h1

/-! ## Lemmas: program-counter advance of each arm -/

theorem advPc_bind {α β : Type} {x : VmM α} {f : α → VmM β} {j k : Nat}
    (hx : AdvPc j x) (hf : ∀ a, AdvPc k (f a)) : AdvPc (j + k) (x >>= f) := by
  intro vm h
  rw [vmm_bind_apply] at h ⊢
  rcases hxe : x vm with ⟨o, vm1⟩
  rw [hxe] at h
  cases o with
  | none => simp at h
  | some a =>
    have h1 : vm1.pc = vm.pc + j := by
      have hh := hx vm
      rw [hxe] at hh
      exact hh rfl
    have h2 := hf a vm1 h
    rw [h2, h1, Nat.add_assoc]

theorem advPc_pure (a : α) : AdvPc 0 (pure a : VmM α) := fun _ _ => rfl

theorem next8M_adv : AdvPc 1 next8M := by
  intro vm h
  unfold next8M at h ⊢
  cases hg : vm.program.get? vm.pc with
  | none => rw [hg] at h; simp at h
  | some b => rfl

theorem next16M_adv : AdvPc 2 next16M := by
  intro vm h
  unfold next16M at h ⊢
  cases hg : vm.program.get? vm.pc with
  | none => rw [hg] at h; simp at h
  | some hi =>
    rw [hg] at h
    cases hg2 : vm.program.get? (vm.pc + 1) with
    | none => rw [hg2] at h; simp at h
    | some lo => rfl

theorem regReadM_adv (idx : Nat) : AdvPc 0 (regReadM idx) := by
  intro vm h
  unfold regReadM at h ⊢
  cases hg : vm.registers.get? idx with
  | none => rw [hg] at h; simp at h
  | some v => rfl

theorem regWriteM_adv (idx : Nat) (v : Int) : AdvPc 0 (regWriteM idx v) := by
  intro vm h
  unfold regWriteM at h ⊢
  split <;> rfl

theorem fregReadM_adv (idx : Nat) : AdvPc 0 (fregReadM idx) := by
  intro vm h
  unfold fregReadM at h ⊢
  cases hg : vm.floatRegisters.get? idx with
  | none => rw [hg] at h; simp at h
  | some v => rfl

theorem fregWriteM_adv (idx : Nat) (v : Rat) : AdvPc 0 (fregWriteM idx v) := by
  intro vm h
  unfold fregWriteM at h ⊢
  split <;> rfl

theorem setFlagM_adv (b : Bool) : AdvPc 0 (setFlagM b) := fun _ _ => rfl

theorem setRemainderM_adv (n : Nat) : AdvPc 0 (setRemainderM n) := fun _ _ => rfl

theorem checkM_adv (b : Bool) : AdvPc 0 (checkM b) := fun _ _ => rfl

theorem armLoad_adv : AdvPc 3 armLoad := by
  unfold armLoad
  exact advPc_bind next8M_adv fun r =>
    advPc_bind next16M_adv fun n => regWriteM_adv r _

theorem armIntBin_adv (f : Int → Int → Int) : AdvPc 3 (armIntBin f) := by
  unfold armIntBin
  exact advPc_bind next8M_adv fun b1 =>
    advPc_bind (regReadM_adv b1) fun r1 =>
    advPc_bind next8M_adv fun b2 =>
    advPc_bind (regReadM_adv b2) fun r2 =>
    advPc_bind next8M_adv fun b3 => regWriteM_adv b3 _

theorem armDiv_adv : AdvPc 3 armDiv := by
  unfold armDiv
  exact advPc_bind next8M_adv fun b1 =>
    advPc_bind (regReadM_adv b1) fun r1 =>
    advPc_bind next8M_adv fun b2 =>
    advPc_bind (regReadM_adv b2) fun r2 =>
    advPc_bind next8M_adv fun b3 =>
    advPc_bind (checkM_adv _) fun _ =>
    advPc_bind (regWriteM_adv b3 _) fun _ => setRemainderM_adv _

theorem armIntCmp_adv (f : Int → Int → Bool) : AdvPc 3 (armIntCmp f) := by
  unfold armIntCmp
  exact advPc_bind next8M_adv fun b1 =>
    advPc_bind (regReadM_adv b1) fun r1 =>
    advPc_bind next8M_adv fun b2 =>
    advPc_bind (regReadM_adv b2) fun r2 =>
    advPc_bind (setFlagM_adv _) fun _ =>
    advPc_bind next8M_adv fun _ => advPc_pure _

theorem armAloc_adv : AdvPc 1 armAloc := by
  unfold armAloc
  exact advPc_bind next8M_adv fun b =>
    advPc_bind (regReadM_adv b) fun bytes =>
    ((by intro vm h; cases vm; rfl) : AdvPc 0 _)

theorem armIncDec_adv (d : Int) : AdvPc 3 (armIncDec d) := by
  unfold armIncDec
  exact advPc_bind next8M_adv fun pos =>
    advPc_bind (regReadM_adv pos) fun v =>
    advPc_bind (regWriteM_adv pos _) fun _ =>
    advPc_bind next8M_adv fun _ =>
    advPc_bind next8M_adv fun _ => advPc_pure _

theorem armPrts_adv : AdvPc 2 armPrts := by
  unfold armPrts
  exact advPc_bind next16M_adv fun startOff =>
    advPc_bind ((fun _ _ => rfl) : AdvPc 0 _) fun ro =>
    advPc_bind (checkM_adv _) fun _ =>
    ((by
      cases hfi : (ro.drop startOff).findIdx? (fun x => x != 0) with
      | none => exact checkM_adv _
      | some endOff =>
        exact advPc_bind (checkM_adv _) fun _ =>
          ((by
            dsimp only
            split
            · intro vm h
              cases vm
              rfl
            · exact advPc_pure _) : AdvPc 0 _)) : AdvPc 0 _)

theorem armLoadF64_adv : AdvPc 3 armLoadF64 := by
  unfold armLoadF64
  exact advPc_bind next8M_adv fun r =>
    advPc_bind next16M_adv fun n => fregWriteM_adv r _

theorem armFloatBin_adv (f : Rat → Rat → Rat) : AdvPc 3 (armFloatBin f) := by
  unfold armFloatBin
  exact advPc_bind next8M_adv fun b1 =>
    advPc_bind (fregReadM_adv b1) fun r1 =>
    advPc_bind next8M_adv fun b2 =>
    advPc_bind (fregReadM_adv b2) fun r2 =>
    advPc_bind next8M_adv fun b3 => fregWriteM_adv b3 _

theorem armFloatCmp_adv (f : Rat → Rat → Bool) : AdvPc 3 (armFloatCmp f) := by
  unfold armFloatCmp
  exact advPc_bind next8M_adv fun b1 =>
    advPc_bind (fregReadM_adv b1) fun r1 =>
    advPc_bind next8M_adv fun b2 =>
    advPc_bind (fregReadM_adv b2) fun r2 =>
    advPc_bind (setFlagM_adv _) fun _ =>
    advPc_bind next8M_adv fun _ => advPc_pure _

theorem armNop_adv : AdvPc 3 armNop := by
  unfold armNop
  exact advPc_bind next8M_adv fun _ =>
    advPc_bind next8M_adv fun _ =>
    advPc_bind next8M_adv fun _ => advPc_pure _

theorem armShl_adv : AdvPc 3 armShl := by
  unfold armShl
  exact advPc_bind next8M_adv fun rn =>
    advPc_bind next8M_adv fun nb =>
    advPc_bind (regReadM_adv rn) fun v =>
    advPc_bind (regWriteM_adv rn _) fun _ =>
    advPc_bind next8M_adv fun _ => advPc_pure _

theorem armShr_adv : AdvPc 3 armShr := by
  unfold armShr
  exact advPc_bind next8M_adv fun rn =>
    advPc_bind next8M_adv fun nb =>
    advPc_bind (regReadM_adv rn) fun v =>
    advPc_bind (regWriteM_adv rn _) fun _ =>
    advPc_bind next8M_adv fun _ => advPc_pure _

theorem liftArm_pc (m : VmM Unit) (k : Nat) (hm : AdvPc k m) (vm : VM)
    (h : (liftArm m vm).1 ≠ .panicked) : ((liftArm m vm).2).pc = vm.pc + k := by
  unfold liftArm at h ⊢
  rcases he : m vm with ⟨o, v⟩
  rw [he] at h
  cases o with
  | none => simp at h
  | some a =>
    have hh := hm vm
    rw [he] at hh
    exact hh rfl

/-! ## Lemmas: full-state behaviour of the arithmetic arms -/

theorem getD_of_get? {l : List Nat} {n : Nat} {v : Nat} (h : l.get? n = some v) :
    l.getD n 0 = v := by
  simp [List.getD_eq_getElem?_getD, ← List.get?_eq_getElem?, h]

theorem armIntBin_spec (f : Int → Int → Int) (vm : VM) (b1 b2 b3 : Nat) (r1 r2 : Int)
    (h1 : vm.program.get? vm.pc = some b1)
    (h2 : vm.program.get? (vm.pc + 1) = some b2)
    (h3 : vm.program.get? (vm.pc + 2) = some b3)
    (hr1 : vm.registers.get? b1 = some r1)
    (hr2 : vm.registers.get? b2 = some r2)
    (hw : b3 < vm.registers.length) :
    armIntBin f vm = (some (), { vm with
      pc := vm.pc + 3
      registers := vm.registers.set b3 (wrap32 (f r1 r2)) }) := by
  unfold armIntBin next8M regReadM regWriteM
  simp only [vmm_bind_apply]
  simp only [h1, h2, h3, hr1, hr2]
  rw [if_pos hw]

theorem armDiv_spec (vm : VM) (b1 b2 b3 : Nat) (r1 r2 : Int)
    (h1 : vm.program.get? vm.pc = some b1)
    (h2 : vm.program.get? (vm.pc + 1) = some b2)
    (h3 : vm.program.get? (vm.pc + 2) = some b3)
    (hr1 : vm.registers.get? b1 = some r1)
    (hr2 : vm.registers.get? b2 = some r2)
    (hw : b3 < vm.registers.length)
    (hd : ¬(r2 = 0 ∨ (r1 = -(2 ^ 31) ∧ r2 = -1))) :
    armDiv vm = (some (), { vm with
      pc := vm.pc + 3
      registers := vm.registers.set b3 (r1.tdiv r2)
      remainder := ((r1.tmod r2) % 2 ^ 32).toNat }) := by
  unfold armDiv next8M regReadM regWriteM checkM setRemainderM
  simp only [vmm_bind_apply]
  simp only [h1, h2, h3, hr1, hr2, decide_eq_true hd, if_true]
  rw [if_pos hw]

/-! ## Claim C2 -/

/-- C2 (amended).  ADD, SUB, MUL and DIV read their three operand bytes
in the order `src1, src2, dst`: the registers named by the FIRST two
operand bytes are the sources and the register named by the THIRD is the
destination (not `dst, src1, src2` as claimed); DIV writes
`src1 mod src2` — the remainder of the first source by the second — to
the VM's remainder word. -/
theorem c2_arith_operand_order (vm : VM) (b1 b2 b3 : Nat) (r1 r2 : Int)
    (hpc : vm.pc < vm.program.length)
    (h1 : vm.program.get? (vm.pc + 1) = some b1)
    (h2 : vm.program.get? (vm.pc + 2) = some b2)
    (h3 : vm.program.get? (vm.pc + 3) = some b3)
    (hr1 : vm.registers.get? b1 = some r1)
    (hr2 : vm.registers.get? b2 = some r2)
    (hw : b3 < vm.registers.length) :
    (vm.program.get? vm.pc = some (Opcode.toByte .ADD) →
      execOnce vm = (.cont, { vm with
        pc := vm.pc + 4
        registers := vm.registers.set b3 (wrap32 (r1 + r2)) })) ∧
    (vm.program.get? vm.pc = some (Opcode.toByte .SUB) →
      execOnce vm = (.cont, { vm with
        pc := vm.pc + 4
        registers := vm.registers.set b3 (wrap32 (r1 - r2)) })) ∧
    (vm.program.get? vm.pc = some (Opcode.toByte .MUL) →
      execOnce vm = (.cont, { vm with
        pc := vm.pc + 4
        registers := vm.registers.set b3 (wrap32 (r1 * r2)) })) ∧
    (vm.program.get? vm.pc = some (Opcode.toByte .DIV) →
      ¬(r2 = 0 ∨ (r1 = -(2 ^ 31) ∧ r2 = -1)) →
      execOnce vm = (.cont, { vm with
        pc := vm.pc + 4
        registers := vm.registers.set b3 (r1.tdiv r2)
        remainder := ((r1.tmod r2) % 2 ^ 32).toNat })) := by
  refine ⟨fun hop => ?_, fun hop => ?_, fun hop => ?_, fun hop hd => ?_⟩
  · have hgd : vm.program.getD vm.pc 0 = Opcode.toByte .ADD := getD_of_get? hop
    have hstep : execOnce vm = liftArm (armIntBin (· + ·)) { vm with pc := vm.pc + 1 } := by
      unfold execOnce
      rw [if_pos hpc]
      dsimp only
      rw [hgd]
      rfl
    rw [hstep]
    unfold liftArm
    rw [armIntBin_spec (· + ·) { vm with pc := vm.pc + 1 } b1 b2 b3 r1 r2 h1 h2 h3 hr1 hr2 hw]
  · have hgd : vm.program.getD vm.pc 0 = Opcode.toByte .SUB := getD_of_get? hop
    have hstep : execOnce vm = liftArm (armIntBin (· - ·)) { vm with pc := vm.pc + 1 } := by
      unfold execOnce
      rw [if_pos hpc]
      dsimp only
      rw [hgd]
      rfl
    rw [hstep]
    unfold liftArm
    rw [armIntBin_spec (· - ·) { vm with pc := vm.pc + 1 } b1 b2 b3 r1 r2 h1 h2 h3 hr1 hr2 hw]
  · have hgd : vm.program.getD vm.pc 0 = Opcode.toByte .MUL := getD_of_get? hop
    have hstep : execOnce vm = liftArm (armIntBin (· * ·)) { vm with pc := vm.pc + 1 } := by
      unfold execOnce
      rw [if_pos hpc]
      dsimp only
      rw [hgd]
      rfl
    rw [hstep]
    unfold liftArm
    rw [armIntBin_spec (· * ·) { vm with pc := vm.pc + 1 } b1 b2 b3 r1 r2 h1 h2 h3 hr1 hr2 hw]
  · have hgd : vm.program.getD vm.pc 0 = Opcode.toByte .DIV := getD_of_get? hop
    have hstep : execOnce vm = liftArm armDiv { vm with pc := vm.pc + 1 } := by
      unfold execOnce
      rw [if_pos hpc]
      dsimp only
      rw [hgd]
      rfl
    rw [hstep]
    unfold liftArm
    rw [armDiv_spec { vm with pc := vm.pc + 1 } b1 b2 b3 r1 r2 h1 h2 h3 hr1 hr2 hw hd]

/-- Witness for C2: `[ADD, 0, 1, 2]` from registers 5, 10 writes 15 into
register 2 (the register named by the third operand byte). -/
theorem c2_arith_operand_order_witness :
    execOnce addVM = (.cont, { addVM with
      pc := addVM.pc + 4
      registers := addVM.registers.set 2 (wrap32 (5 + 10)) }) :=
  (c2_arith_operand_order addVM 0 1 2 5 10 (by decide) (by decide) (by decide)
    (by decide) (by decide) (by decide) (by decide)).1 (by decide)

/-- Counterexample for C2 as stated: executing `[ADD, 0, 1, 2]` from the
test register file does NOT treat the first operand byte as the
destination — the register file differs from the claimed-semantics
result `addDstFirstRegisters`. -/
theorem c2_counterexample :
    (execOnce addVM).1 = .cont ∧
    (execOnce addVM).2.registers ≠ addDstFirstRegisters addVM 0 1 2 := by
  decide

/-! ## Claim C3 -/

/-- C3. For every opcode other than the jumps, executing one instruction
was claimed to advance the program counter by exactly 4 bytes.  In fact
the advance is 4 only for the load / arithmetic / comparison / INC / DEC /
NOP / shift / float opcodes (`fourBytePcOps`); ALOC advances the PC by 2,
PRTS by 3, HLT by 1, the unimplemented opcodes (including IGL and DJMPE)
by 1, and a JMPE whose flag is clear by 1. -/
theorem c3_pc_advance (vm : VM)
    (hpc : vm.pc < vm.program.length)
    (hres : (execOnce vm).1 ≠ .panicked) :
    (Opcode.fromByte (vm.program.getD vm.pc 0) ∈ fourBytePcOps →
      ((execOnce vm).2).pc = vm.pc + 4) ∧
    (Opcode.fromByte (vm.program.getD vm.pc 0) = .ALOC →
      ((execOnce vm).2).pc = vm.pc + 2) ∧
    (Opcode.fromByte (vm.program.getD vm.pc 0) = .PRTS →
      ((execOnce vm).2).pc = vm.pc + 3) ∧
    (Opcode.fromByte (vm.program.getD vm.pc 0) = .HLT →
      ((execOnce vm).2).pc = vm.pc + 1) ∧
    (Opcode.fromByte (vm.program.getD vm.pc 0) ∈ unimplementedOps →
      ((execOnce vm).2).pc = vm.pc + 1) ∧
    (Opcode.fromByte (vm.program.getD vm.pc 0) = .JMPE → vm.equalFlag = false →
      ((execOnce vm).2).pc = vm.pc + 1) := by
  cases hop : Opcode.fromByte (vm.program.getD vm.pc 0) with
  | LOAD =>
    have hstep : execOnce vm = liftArm armLoad { vm with pc := vm.pc + 1 } := by
      unfold execOnce
      rw [if_pos hpc]
      dsimp only
      rw [hop]
    rw [hstep] at hres ⊢
    exact ⟨fun _ => liftArm_pc _ 3 armLoad_adv _ hres,
      fun hh => absurd hh (by decide),
      fun hh => absurd hh (by decide),
      fun hh => absurd hh (by decide),
      fun hh => absurd hh (by decide),
      fun hh _ => absurd hh (by decide)⟩
  | ADD =>
    have hstep : execOnce vm = liftArm (armIntBin (· + ·)) { vm with pc := vm.pc + 1 } := by
      unfold execOnce
      rw [if_pos hpc]
      dsimp only
      rw [hop]
    rw [hstep] at hres ⊢
    exact ⟨fun _ => liftArm_pc _ 3 (armIntBin_adv _) _ hres,
      fun hh => absurd hh (by decide),
      fun hh => absurd hh (by decide),
      fun hh => absurd hh (by decide),
      fun hh => absurd hh (by decide),
      fun hh _ => absurd hh (by decide)⟩
  | SUB =>
    have hstep : execOnce vm = liftArm (armIntBin (· - ·)) { vm with pc := vm.pc + 1 } := by
      unfold execOnce
      rw [if_pos hpc]
      dsimp only
      rw [hop]
    rw [hstep] at hres ⊢
    exact ⟨fun _ => liftArm_pc _ 3 (armIntBin_adv _) _ hres,
      fun hh => absurd hh (by decide),
      fun hh => absurd hh (by decide),
      fun hh => absurd hh (by decide),
      fun hh => absurd hh (by decide),
      fun hh _ => absurd hh (by decide)⟩
  | MUL =>
    have hstep : execOnce vm = liftArm (armIntBin (· * ·)) { vm with pc := vm.pc + 1 } := by
      unfold execOnce
      rw [if_pos hpc]
      dsimp only
      rw [hop]
    rw [hstep] at hres ⊢
    exact ⟨fun _ => liftArm_pc _ 3 (armIntBin_adv _) _ hres,
      fun hh => absurd hh (by decide),
      fun hh => absurd hh (by decide),
      fun hh => absurd hh (by decide),
      fun hh => absurd hh (by decide),
      fun hh _ => absurd hh (by decide)⟩
  | DIV =>
    have hstep : execOnce vm = liftArm armDiv { vm with pc := vm.pc + 1 } := by
      unfold execOnce
      rw [if_pos hpc]
      dsimp only
      rw [hop]
    rw [hstep] at hres ⊢
    exact ⟨fun _ => liftArm_pc _ 3 armDiv_adv _ hres,
      fun hh => absurd hh (by decide),
      fun hh => absurd hh (by decide),
      fun hh => absurd hh (by decide),
      fun hh => absurd hh (by decide),
      fun hh _ => absurd hh (by decide)⟩
  | HLT =>
    have hstep : execOnce vm = (.cont, { vm with pc := vm.pc + 1 }) := by
      unfold execOnce
      rw [if_pos hpc]
      dsimp only
      rw [hop]
    rw [hstep] at hres ⊢
    exact ⟨fun hh => absurd hh (by decide),
      fun hh => absurd hh (by decide),
      fun hh => absurd hh (by decide),
      fun _ => rfl,
      fun hh => absurd hh (by decide),
      fun hh _ => absurd hh (by decide)⟩
  | JMP =>
    exact ⟨fun hh => absurd hh (by decide),
      fun hh => absurd hh (by decide),
      fun hh => absurd hh (by decide),
      fun hh => absurd hh (by decide),
      fun hh => absurd hh (by decide),
      fun hh _ => absurd hh (by decide)⟩
  | JMPF =>
    exact ⟨fun hh => absurd hh (by decide),
      fun hh => absurd hh (by decide),
      fun hh => absurd hh (by decide),
      fun hh => absurd hh (by decide),
      fun hh => absurd hh (by decide),
      fun hh _ => absurd hh (by decide)⟩
  | JMPB =>
    exact ⟨fun hh => absurd hh (by decide),
      fun hh => absurd hh (by decide),
      fun hh => absurd hh (by decide),
      fun hh => absurd hh (by decide),
      fun hh => absurd hh (by decide),
      fun hh _ => absurd hh (by decide)⟩
  | EQ =>
    have hstep : execOnce vm = liftArm (armIntCmp (fun a b => a = b)) { vm with pc := vm.pc + 1 } := by
      unfold execOnce
      rw [if_pos hpc]
      dsimp only
      rw [hop]
    rw [hstep] at hres ⊢
    exact ⟨fun _ => liftArm_pc _ 3 (armIntCmp_adv _) _ hres,
      fun hh => absurd hh (by decide),
      fun hh => absurd hh (by decide),
      fun hh => absurd hh (by decide),
      fun hh => absurd hh (by decide),
      fun hh _ => absurd hh (by decide)⟩
  | NEQ =>
    have hstep : execOnce vm = liftArm (armIntCmp (fun a b => a ≠ b)) { vm with pc := vm.pc + 1 } := by
      unfold execOnce
      rw [if_pos hpc]
      dsimp only
      rw [hop]
    rw [hstep] at hres ⊢
    exact ⟨fun _ => liftArm_pc _ 3 (armIntCmp_adv _) _ hres,
      fun hh => absurd hh (by decide),
      fun hh => absurd hh (by decide),
      fun hh => absurd hh (by decide),
      fun hh => absurd hh (by decide),
      fun hh _ => absurd hh (by decide)⟩
  | GTE =>
    have hstep : execOnce vm = liftArm (armIntCmp (fun a b => a ≥ b)) { vm with pc := vm.pc + 1 } := by
      unfold execOnce
      rw [if_pos hpc]
      dsimp only
      rw [hop]
    rw [hstep] at hres ⊢
    exact ⟨fun _ => liftArm_pc _ 3 (armIntCmp_adv _) _ hres,
      fun hh => absurd hh (by decide),
      fun hh => absurd hh (by decide),
      fun hh => absurd hh (by decide),
      fun hh => absurd hh (by decide),
      fun hh _ => absurd hh (by decide)⟩
  | LTE =>
    have hstep : execOnce vm = liftArm (armIntCmp (fun a b => a ≤ b)) { vm with pc := vm.pc + 1 } := by
      unfold execOnce
      rw [if_pos hpc]
      dsimp only
      rw [hop]
    rw [hstep] at hres ⊢
    exact ⟨fun _ => liftArm_pc _ 3 (armIntCmp_adv _) _ hres,
      fun hh => absurd hh (by decide),
      fun hh => absurd hh (by decide),
      fun hh => absurd hh (by decide),
      fun hh => absurd hh (by decide),
      fun hh _ => absurd hh (by decide)⟩
  | LT =>
    have hstep : execOnce vm = liftArm (armIntCmp (fun a b => a < b)) { vm with pc := vm.pc + 1 } := by
      unfold execOnce
      rw [if_pos hpc]
      dsimp only
      rw [hop]
    rw [hstep] at hres ⊢
    exact ⟨fun _ => liftArm_pc _ 3 (armIntCmp_adv _) _ hres,
      fun hh => absurd hh (by decide),
      fun hh => absurd hh (by decide),
      fun hh => absurd hh (by decide),
      fun hh => absurd hh (by decide),
      fun hh _ => absurd hh (by decide)⟩
  | GT =>
    have hstep : execOnce vm = liftArm (armIntCmp (fun a b => a > b)) { vm with pc := vm.pc + 1 } := by
      unfold execOnce
      rw [if_pos hpc]
      dsimp only
      rw [hop]
    rw [hstep] at hres ⊢
    exact ⟨fun _ => liftArm_pc _ 3 (armIntCmp_adv _) _ hres,
      fun hh => absurd hh (by decide),
      fun hh => absurd hh (by decide),
      fun hh => absurd hh (by decide),
      fun hh => absurd hh (by decide),
      fun hh _ => absurd hh (by decide)⟩
  | JMPE =>
    refine ⟨fun hh => absurd hh (by decide), fun hh => absurd hh (by decide),
      fun hh => absurd hh (by decide), fun hh => absurd hh (by decide),
      fun hh => absurd hh (by decide), fun _ hflag => ?_⟩
    have hstep : execOnce vm = (.cont, { vm with pc := vm.pc + 1 }) := by
      unfold execOnce
      rw [if_pos hpc]
      dsimp only
      rw [hop]
      dsimp only
      simp [hflag]
    rw [hstep]
  | NOP =>
    have hstep : execOnce vm = liftArm armNop { vm with pc := vm.pc + 1 } := by
      unfold execOnce
      rw [if_pos hpc]
      dsimp only
      rw [hop]
    rw [hstep] at hres ⊢
    exact ⟨fun _ => liftArm_pc _ 3 armNop_adv _ hres,
      fun hh => absurd hh (by decide),
      fun hh => absurd hh (by decide),
      fun hh => absurd hh (by decide),
      fun hh => absurd hh (by decide),
      fun hh _ => absurd hh (by decide)⟩
  | ALOC =>
    have hstep : execOnce vm = liftArm armAloc { vm with pc := vm.pc + 1 } := by
      unfold execOnce
      rw [if_pos hpc]
      dsimp only
      rw [hop]
    rw [hstep] at hres ⊢
    exact ⟨fun hh => absurd hh (by decide),
      fun _ => liftArm_pc _ 1 armAloc_adv _ hres,
      fun hh => absurd hh (by decide),
      fun hh => absurd hh (by decide),
      fun hh => absurd hh (by decide),
      fun hh _ => absurd hh (by decide)⟩
  | INC =>
    have hstep : execOnce vm = liftArm (armIncDec 1) { vm with pc := vm.pc + 1 } := by
      unfold execOnce
      rw [if_pos hpc]
      dsimp only
      rw [hop]
    rw [hstep] at hres ⊢
    exact ⟨fun _ => liftArm_pc _ 3 (armIncDec_adv _) _ hres,
      fun hh => absurd hh (by decide),
      fun hh => absurd hh (by decide),
      fun hh => absurd hh (by decide),
      fun hh => absurd hh (by decide),
      fun hh _ => absurd hh (by decide)⟩
  | DEC =>
    have hstep : execOnce vm = liftArm (armIncDec (-1)) { vm with pc := vm.pc + 1 } := by
      unfold execOnce
      rw [if_pos hpc]
      dsimp only
      rw [hop]
    rw [hstep] at hres ⊢
    exact ⟨fun _ => liftArm_pc _ 3 (armIncDec_adv _) _ hres,
      fun hh => absurd hh (by decide),
      fun hh => absurd hh (by decide),
      fun hh => absurd hh (by decide),
      fun hh => absurd hh (by decide),
      fun hh _ => absurd hh (by decide)⟩
  | DJMPE =>
    have hstep : execOnce vm = (.done, { vm with pc := vm.pc + 1 }) := by
      unfold execOnce
      rw [if_pos hpc]
      dsimp only
      rw [hop]
    rw [hstep] at hres ⊢
    exact ⟨fun hh => absurd hh (by decide),
      fun hh => absurd hh (by decide),
      fun hh => absurd hh (by decide),
      fun hh => absurd hh (by decide),
      fun _ => rfl,
      fun hh _ => absurd hh (by decide)⟩
  | IGL =>
    have hstep : execOnce vm = (.done, { vm with pc := vm.pc + 1 }) := by
      unfold execOnce
      rw [if_pos hpc]
      dsimp only
      rw [hop]
    rw [hstep] at hres ⊢
    exact ⟨fun hh => absurd hh (by decide),
      fun hh => absurd hh (by decide),
      fun hh => absurd hh (by decide),
      fun hh => absurd hh (by decide),
      fun _ => rfl,
      fun hh _ => absurd hh (by decide)⟩
  | PRTS =>
    have hstep : execOnce vm = liftArm armPrts { vm with pc := vm.pc + 1 } := by
      unfold execOnce
      rw [if_pos hpc]
      dsimp only
      rw [hop]
    rw [hstep] at hres ⊢
    exact ⟨fun hh => absurd hh (by decide),
      fun hh => absurd hh (by decide),
      fun _ => liftArm_pc _ 2 armPrts_adv _ hres,
      fun hh => absurd hh (by decide),
      fun hh => absurd hh (by decide),
      fun hh _ => absurd hh (by decide)⟩
  | LOADF64 =>
    have hstep : execOnce vm = liftArm armLoadF64 { vm with pc := vm.pc + 1 } := by
      unfold execOnce
      rw [if_pos hpc]
      dsimp only
      rw [hop]
    rw [hstep] at hres ⊢
    exact ⟨fun _ => liftArm_pc _ 3 armLoadF64_adv _ hres,
      fun hh => absurd hh (by decide),
      fun hh => absurd hh (by decide),
      fun hh => absurd hh (by decide),
      fun hh => absurd hh (by decide),
      fun hh _ => absurd hh (by decide)⟩
  | ADDF64 =>
    have hstep : execOnce vm = liftArm (armFloatBin (· + ·)) { vm with pc := vm.pc + 1 } := by
      unfold execOnce
      rw [if_pos hpc]
      dsimp only
      rw [hop]
    rw [hstep] at hres ⊢
    exact ⟨fun _ => liftArm_pc _ 3 (armFloatBin_adv _) _ hres,
      fun hh => absurd hh (by decide),
      fun hh => absurd hh (by decide),
      fun hh => absurd hh (by decide),
      fun hh => absurd hh (by decide),
      fun hh _ => absurd hh (by decide)⟩
  | SUBF64 =>
    have hstep : execOnce vm = liftArm (armFloatBin (· - ·)) { vm with pc := vm.pc + 1 } := by
      unfold execOnce
      rw [if_pos hpc]
      dsimp only
      rw [hop]
    rw [hstep] at hres ⊢
    exact ⟨fun _ => liftArm_pc _ 3 (armFloatBin_adv _) _ hres,
      fun hh => absurd hh (by decide),
      fun hh => absurd hh (by decide),
      fun hh => absurd hh (by decide),
      fun hh => absurd hh (by decide),
      fun hh _ => absurd hh (by decide)⟩
  | MULF64 =>
    have hstep : execOnce vm = liftArm (armFloatBin (· * ·)) { vm with pc := vm.pc + 1 } := by
      unfold execOnce
      rw [if_pos hpc]
      dsimp only
      rw [hop]
    rw [hstep] at hres ⊢
    exact ⟨fun _ => liftArm_pc _ 3 (armFloatBin_adv _) _ hres,
      fun hh => absurd hh (by decide),
      fun hh => absurd hh (by decide),
      fun hh => absurd hh (by decide),
      fun hh => absurd hh (by decide),
      fun hh _ => absurd hh (by decide)⟩
  | DIVF64 =>
    have hstep : execOnce vm = liftArm (armFloatBin (· / ·)) { vm with pc := vm.pc + 1 } := by
      unfold execOnce
      rw [if_pos hpc]
      dsimp only
      rw [hop]
    rw [hstep] at hres ⊢
    exact ⟨fun _ => liftArm_pc _ 3 (armFloatBin_adv _) _ hres,
      fun hh => absurd hh (by decide),
      fun hh => absurd hh (by decide),
      fun hh => absurd hh (by decide),
      fun hh => absurd hh (by decide),
      fun hh _ => absurd hh (by decide)⟩
  | EQF64 =>
    have hstep : execOnce vm = liftArm (armFloatCmp (fun a b => |a - b| < f64Eps)) { vm with pc := vm.pc + 1 } := by
      unfold execOnce
      rw [if_pos hpc]
      dsimp only
      rw [hop]
    rw [hstep] at hres ⊢
    exact ⟨fun _ => liftArm_pc _ 3 (armFloatCmp_adv _) _ hres,
      fun hh => absurd hh (by decide),
      fun hh => absurd hh (by decide),
      fun hh => absurd hh (by decide),
      fun hh => absurd hh (by decide),
      fun hh _ => absurd hh (by decide)⟩
  | NEQF64 =>
    have hstep : execOnce vm = liftArm (armFloatCmp (fun a b => |a - b| > f64Eps)) { vm with pc := vm.pc + 1 } := by
      unfold execOnce
      rw [if_pos hpc]
      dsimp only
      rw [hop]
    rw [hstep] at hres ⊢
    exact ⟨fun _ => liftArm_pc _ 3 (armFloatCmp_adv _) _ hres,
      fun hh => absurd hh (by decide),
      fun hh => absurd hh (by decide),
      fun hh => absurd hh (by decide),
      fun hh => absurd hh (by decide),
      fun hh _ => absurd hh (by decide)⟩
  | GTF64 =>
    have hstep : execOnce vm = liftArm (armFloatCmp (fun a b => a > b)) { vm with pc := vm.pc + 1 } := by
      unfold execOnce
      rw [if_pos hpc]
      dsimp only
      rw [hop]
    rw [hstep] at hres ⊢
    exact ⟨fun _ => liftArm_pc _ 3 (armFloatCmp_adv _) _ hres,
      fun hh => absurd hh (by decide),
      fun hh => absurd hh (by decide),
      fun hh => absurd hh (by decide),
      fun hh => absurd hh (by decide),
      fun hh _ => absurd hh (by decide)⟩
  | GTEF64 =>
    have hstep : execOnce vm = liftArm (armFloatCmp (fun a b => a ≥ b)) { vm with pc := vm.pc + 1 } := by
      unfold execOnce
      rw [if_pos hpc]
      dsimp only
      rw [hop]
    rw [hstep] at hres ⊢
    exact ⟨fun _ => liftArm_pc _ 3 (armFloatCmp_adv _) _ hres,
      fun hh => absurd hh (by decide),
      fun hh => absurd hh (by decide),
      fun hh => absurd hh (by decide),
      fun hh => absurd hh (by decide),
      fun hh _ => absurd hh (by decide)⟩
  | LTF64 =>
    have hstep : execOnce vm = liftArm (armFloatCmp (fun a b => a < b)) { vm with pc := vm.pc + 1 } := by
      unfold execOnce
      rw [if_pos hpc]
      dsimp only
      rw [hop]
    rw [hstep] at hres ⊢
    exact ⟨fun _ => liftArm_pc _ 3 (armFloatCmp_adv _) _ hres,
      fun hh => absurd hh (by decide),
      fun hh => absurd hh (by decide),
      fun hh => absurd hh (by decide),
      fun hh => absurd hh (by decide),
      fun hh _ => absurd hh (by decide)⟩
  | LTEF64 =>
    have hstep : execOnce vm = liftArm (armFloatCmp (fun a b => a ≤ b)) { vm with pc := vm.pc + 1 } := by
      unfold execOnce
      rw [if_pos hpc]
      dsimp only
      rw [hop]
    rw [hstep] at hres ⊢
    exact ⟨fun _ => liftArm_pc _ 3 (armFloatCmp_adv _) _ hres,
      fun hh => absurd hh (by decide),
      fun hh => absurd hh (by decide),
      fun hh => absurd hh (by decide),
      fun hh => absurd hh (by decide),
      fun hh _ => absurd hh (by decide)⟩
  | SHL =>
    have hstep : execOnce vm = liftArm armShl { vm with pc := vm.pc + 1 } := by
      unfold execOnce
      rw [if_pos hpc]
      dsimp only
      rw [hop]
    rw [hstep] at hres ⊢
    exact ⟨fun _ => liftArm_pc _ 3 armShl_adv _ hres,
      fun hh => absurd hh (by decide),
      fun hh => absurd hh (by decide),
      fun hh => absurd hh (by decide),
      fun hh => absurd hh (by decide),
      fun hh _ => absurd hh (by decide)⟩
  | SHR =>
    have hstep : execOnce vm = liftArm armShr { vm with pc := vm.pc + 1 } := by
      unfold execOnce
      rw [if_pos hpc]
      dsimp only
      rw [hop]
    rw [hstep] at hres ⊢
    exact ⟨fun _ => liftArm_pc _ 3 armShr_adv _ hres,
      fun hh => absurd hh (by decide),
      fun hh => absurd hh (by decide),
      fun hh => absurd hh (by decide),
      fun hh => absurd hh (by decide),
      fun hh _ => absurd hh (by decide)⟩
  | AND =>
    have hstep : execOnce vm = (.done, { vm with pc := vm.pc + 1 }) := by
      unfold execOnce
      rw [if_pos hpc]
      dsimp only
      rw [hop]
    rw [hstep] at hres ⊢
    exact ⟨fun hh => absurd hh (by decide),
      fun hh => absurd hh (by decide),
      fun hh => absurd hh (by decide),
      fun hh => absurd hh (by decide),
      fun _ => rfl,
      fun hh _ => absurd hh (by decide)⟩
  | OR =>
    have hstep : execOnce vm = (.done, { vm with pc := vm.pc + 1 }) := by
      unfold execOnce
      rw [if_pos hpc]
      dsimp only
      rw [hop]
    rw [hstep] at hres ⊢
    exact ⟨fun hh => absurd hh (by decide),
      fun hh => absurd hh (by decide),
      fun hh => absurd hh (by decide),
      fun hh => absurd hh (by decide),
      fun _ => rfl,
      fun hh _ => absurd hh (by decide)⟩
  | XOR =>
    have hstep : execOnce vm = (.done, { vm with pc := vm.pc + 1 }) := by
      unfold execOnce
      rw [if_pos hpc]
      dsimp only
      rw [hop]
    rw [hstep] at hres ⊢
    exact ⟨fun hh => absurd hh (by decide),
      fun hh => absurd hh (by decide),
      fun hh => absurd hh (by decide),
      fun hh => absurd hh (by decide),
      fun _ => rfl,
      fun hh _ => absurd hh (by decide)⟩
  | NOT =>
    have hstep : execOnce vm = (.done, { vm with pc := vm.pc + 1 }) := by
      unfold execOnce
      rw [if_pos hpc]
      dsimp only
      rw [hop]
    rw [hstep] at hres ⊢
    exact ⟨fun hh => absurd hh (by decide),
      fun hh => absurd hh (by decide),
      fun hh => absurd hh (by decide),
      fun hh => absurd hh (by decide),
      fun _ => rfl,
      fun hh _ => absurd hh (by decide)⟩
  | LUI =>
    have hstep : execOnce vm = (.done, { vm with pc := vm.pc + 1 }) := by
      unfold execOnce
      rw [if_pos hpc]
      dsimp only
      rw [hop]
    rw [hstep] at hres ⊢
    exact ⟨fun hh => absurd hh (by decide),
      fun hh => absurd hh (by decide),
      fun hh => absurd hh (by decide),
      fun hh => absurd hh (by decide),
      fun _ => rfl,
      fun hh _ => absurd hh (by decide)⟩
  | CLOOP =>
    have hstep : execOnce vm = (.done, { vm with pc := vm.pc + 1 }) := by
      unfold execOnce
      rw [if_pos hpc]
      dsimp only
      rw [hop]
    rw [hstep] at hres ⊢
    exact ⟨fun hh => absurd hh (by decide),
      fun hh => absurd hh (by decide),
      fun hh => absurd hh (by decide),
      fun hh => absurd hh (by decide),
      fun _ => rfl,
      fun hh _ => absurd hh (by decide)⟩
  | LOOP =>
    have hstep : execOnce vm = (.done, { vm with pc := vm.pc + 1 }) := by
      unfold execOnce
      rw [if_pos hpc]
      dsimp only
      rw [hop]
    rw [hstep] at hres ⊢
    exact ⟨fun hh => absurd hh (by decide),
      fun hh => absurd hh (by decide),
      fun hh => absurd hh (by decide),
      fun hh => absurd hh (by decide),
      fun _ => rfl,
      fun hh _ => absurd hh (by decide)⟩
  | LOADM =>
    have hstep : execOnce vm = (.done, { vm with pc := vm.pc + 1 }) := by
      unfold execOnce
      rw [if_pos hpc]
      dsimp only
      rw [hop]
    rw [hstep] at hres ⊢
    exact ⟨fun hh => absurd hh (by decide),
      fun hh => absurd hh (by decide),
      fun hh => absurd hh (by decide),
      fun hh => absurd hh (by decide),
      fun _ => rfl,
      fun hh _ => absurd hh (by decide)⟩
  | SETM =>
    have hstep : execOnce vm = (.done, { vm with pc := vm.pc + 1 }) := by
      unfold execOnce
      rw [if_pos hpc]
      dsimp only
      rw [hop]
    rw [hstep] at hres ⊢
    exact ⟨fun hh => absurd hh (by decide),
      fun hh => absurd hh (by decide),
      fun hh => absurd hh (by decide),
      fun hh => absurd hh (by decide),
      fun _ => rfl,
      fun hh _ => absurd hh (by decide)⟩
  | PUSH =>
    have hstep : execOnce vm = (.done, { vm with pc := vm.pc + 1 }) := by
      unfold execOnce
      rw [if_pos hpc]
      dsimp only
      rw [hop]
    rw [hstep] at hres ⊢
    exact ⟨fun hh => absurd hh (by decide),
      fun hh => absurd hh (by decide),
      fun hh => absurd hh (by decide),
      fun hh => absurd hh (by decide),
      fun _ => rfl,
      fun hh _ => absurd hh (by decide)⟩
  | POP =>
    have hstep : execOnce vm = (.done, { vm with pc := vm.pc + 1 }) := by
      unfold execOnce
      rw [if_pos hpc]
      dsimp only
      rw [hop]
    rw [hstep] at hres ⊢
    exact ⟨fun hh => absurd hh (by decide),
      fun hh => absurd hh (by decide),
      fun hh => absurd hh (by decide),
      fun hh => absurd hh (by decide),
      fun _ => rfl,
      fun hh _ => absurd hh (by decide)⟩
  | CALL =>
    have hstep : execOnce vm = (.done, { vm with pc := vm.pc + 1 }) := by
      unfold execOnce
      rw [if_pos hpc]
      dsimp only
      rw [hop]
    rw [hstep] at hres ⊢
    exact ⟨fun hh => absurd hh (by decide),
      fun hh => absurd hh (by decide),
      fun hh => absurd hh (by decide),
      fun hh => absurd hh (by decide),
      fun _ => rfl,
      fun hh _ => absurd hh (by decide)⟩
  | RET =>
    have hstep : execOnce vm = (.done, { vm with pc := vm.pc + 1 }) := by
      unfold execOnce
      rw [if_pos hpc]
      dsimp only
      rw [hop]
    rw [hstep] at hres ⊢
    exact ⟨fun hh => absurd hh (by decide),
      fun hh => absurd hh (by decide),
      fun hh => absurd hh (by decide),
      fun hh => absurd hh (by decide),
      fun _ => rfl,
      fun hh _ => absurd hh (by decide)⟩

/-- Witness for C3 at a concrete ADD instruction: the program counter
advances from 0 to 4. -/
theorem c3_pc_advance_witness :
    addVM.pc < addVM.program.length ∧
    ((execOnce addVM).2).pc = addVM.pc + 4 :=
  ⟨by decide, (c3_pc_advance addVM (by decide) (by decide)).1 (by decide)⟩

/-- Counterexample for C3 as stated: ALOC is not a jump, yet executing
`[ALOC, 0, 0, 0]` advances the program counter by 2, not 4. -/
theorem c3_counterexample :
    Opcode.fromByte (alocVM.program.getD alocVM.pc 0) = .ALOC ∧
    (execOnce alocVM).1 = .cont ∧
    ¬(((execOnce alocVM).2).pc = alocVM.pc + 4) := by
  decide

/-! ## Claim C5 -/

theorem runFinish_ro (p : RunRes × VM) :
    ((runFinish p).2).roData = (p.2).roData := by
  rcases p with ⟨r, vm1⟩
  cases r <;> rfl

/-- C5 (refuted on the code — the spec is the intent).  `VM::run` never
copies the image's read-only section into `ro_data`: for every fuel and
every starting state, the `ro_data` buffer after `run` is exactly what it
was before.  In particular a fresh VM loaded with an image whose
read-only section is non-empty still has `ro_data = []` during
execution, so PRTS offsets cannot resolve against constants carried in
the image. -/
theorem c5_run_never_mirrors_ro (fuel : Nat) (vm : VM) :
    ((runFuel fuel vm).2).roData = vm.roData := by
  unfold runFuel
  dsimp only
  split
  · rfl
  split
  · rfl
  split
  · rfl
  rw [runFinish_ro, runLoop_ro]

/-! ## Claim C1 -/

/-- C1 (refuted on the code — the decode table is the slip).  The
byte-level round-trip fails from `IGL` onwards: `Opcode::from(u8)` has no
entry for `IGL` (discriminant 21), so byte 21 decodes to `PRTS` while the
encoder emits 22 for `PRTS`, which decodes to `LOADF64`.  Decoding the
encoding is the identity exactly up to `DJMPE` (discriminants 0..20). -/
theorem c1_roundtrip_broken :
    Opcode.fromByte (Opcode.toByte .PRTS) = .LOADF64 ∧
    Opcode.fromByte (Opcode.toByte .PRTS) ≠ .PRTS ∧
    Opcode.fromByte (Opcode.toByte .IGL) = .PRTS ∧
    Opcode.fromByte (Opcode.toByte .RET) = .IGL ∧
    (allOpcodes.all fun c =>
      decide (Opcode.fromByte (Opcode.toByte c) = c) = decide (c.toByte ≤ 20)) = true := by
  refine ⟨by decide, by decide, by decide, by decide, by decide⟩

/-! ## Claim C4 -/

/-- C4 (refuted on the code — the spec is the intent).  PRTS scans for
the first NON-zero byte of `ro_data[imm..]` and uses that relative
position as an absolute end index, so with `ro_data = "Hello\0"` and
offset 0 it prints the empty string, not `Hello`; and running the VM on
the image `Assembler::assemble` produces for spec scenario 2 panics
without printing anything (its `ro_data` is empty and the code bytes sit
where the header says the read-only section ends). -/
theorem c4_prts_prints_nothing :
    (Assembler.new.assemble scen2Src).1 = .ok scen2Image ∧
    (execOnce prtsVM).1 = .cont ∧
    (execOnce prtsVM).2.output = [[]] ∧
    (runFuel 20 { VM.new with program := scen2Image }).1 = .panicked ∧
    (runFuel 20 { VM.new with program := scen2Image }).2.output = [] := by
  refine ⟨by decide, by decide, by decide, by decide, by decide⟩

/-! ## Claim C8 -/

/-- C8 (refuted on the code — the assembler's own doc comment describes
header ‖ read-only ‖ code).  `Assembler::assemble` emits header ‖ code
only: scenario 1 (`".data\n.code\nhlt\n"`) does give a 68-byte image
whose byte 64 is the HLT code 5, but assembling the same program with a
6-byte `.asciiz` constant still yields a 68-byte image — the header
declares 6 read-only bytes (bytes 4..8 = `06 00 00 00`) yet the
`Hello\0` bytes, present in the assembler's `ro` buffer, never reach the
image. -/
theorem c8_image_drops_ro_bytes :
    (Assembler.new.assemble scen1Src).1
      = .ok (pieHeaderMagic ++ List.replicate 60 0 ++ [5, 0, 0, 0]) ∧
    (pieHeaderMagic ++ List.replicate 60 0 ++ [5, 0, 0, 0] : List Nat).length = 68 ∧
    (Assembler.new.assemble scen2hltSrc).1
      = .ok (pieHeaderMagic ++ [6, 0, 0, 0] ++ List.replicate 56 0 ++ [5, 0, 0, 0]) ∧
    ((Assembler.new.assemble scen2hltSrc).2).ro = [72, 101, 108, 108, 111, 0] := by
  refine ⟨by decide, by decide, by decide, by decide⟩

/-! ## Claim C7 -/

theorem slotBytes_regOrInt (t : Option Token) (tbl : SymbolTable)
    (h : isRegOrInt t = true) :
    ∃ bs, AssemblerInstruction.slotBytes t tbl = .ok bs ∧ bs.length = slotWidth t := by
  cases t with
  | none => exact ⟨[], rfl, rfl⟩
  | some tok =>
    cases tok with
    | Register r => exact ⟨[r], rfl, rfl⟩
    | IntegerOperand v => exact ⟨[lo16 v / 256, lo16 v % 256], rfl, rfl⟩
    | Op c => simp [isRegOrInt] at h
    | StringOperand s => simp [isRegOrInt] at h
    | LabelDeclaration s => simp [isRegOrInt] at h
    | LabelUsage s => simp [isRegOrInt] at h
    | Directive s => simp [isRegOrInt] at h

theorem padTo4_length (l : List Nat) :
    (AssemblerInstruction.padTo4 l).length = max 4 l.length := by
  simp [AssemblerInstruction.padTo4]
  omega

/-- C7 (amended).  For an instruction carrying an opcode whose operand
slots are filled as the grammar fills them (absent, register, or integer
literal), `to_bytes` succeeds and returns `max 4 (1 + w)` bytes, where
`w` is the total encoded operand width (1 per register, 2 per integer
literal).  This is exactly four bytes only when `w ≤ 3`; grammar-accepted
instructions with several integer literals exceed four bytes. -/
theorem c7_tobytes_length (i : AssemblerInstruction) (c : Opcode) (tbl : SymbolTable)
    (hop : i.opcode = some (.Op c))
    (h1 : isRegOrInt i.operand1 = true)
    (h2 : isRegOrInt i.operand2 = true)
    (h3 : isRegOrInt i.operand3 = true) :
    ∃ bs, i.toBytes tbl = .ok bs ∧
      bs.length
        = max 4 (1 + slotWidth i.operand1 + slotWidth i.operand2 + slotWidth i.operand3) := by
  obtain ⟨bs1, e1, l1⟩ := slotBytes_regOrInt i.operand1 tbl h1
  obtain ⟨bs2, e2, l2⟩ := slotBytes_regOrInt i.operand2 tbl h2
  obtain ⟨bs3, e3, l3⟩ := slotBytes_regOrInt i.operand3 tbl h3
  refine ⟨AssemblerInstruction.padTo4 ([c.toByte] ++ bs1 ++ bs2 ++ bs3), ?_, ?_⟩
  · unfold AssemblerInstruction.toBytes
    rw [hop]
    simp [e1, e2, e3]
    rfl
  · rw [padTo4_length]
    simp [l1.symm, l2.symm, l3.symm]
    omega

/-- Witness for C7: `add $0 $1 $2` encodes to exactly four bytes. -/
theorem c7_tobytes_length_witness :
    ∃ bs, c7RegInstr.toBytes SymbolTable.new = .ok bs ∧
      bs.length = max 4 (1 + slotWidth c7RegInstr.operand1
        + slotWidth c7RegInstr.operand2 + slotWidth c7RegInstr.operand3) :=
  c7_tobytes_length c7RegInstr .ADD SymbolTable.new (by decide) (by decide)
    (by decide) (by decide)

/-- Counterexample for C7 as stated: the parser accepts
`"add #1 #2 #3\n"` (three integer-literal operands), and `to_bytes`
emits SEVEN bytes for it, not four. -/
theorem c7_counterexample :
    instrParse "add #1 #2 #3\n".toList = .ok (some (c7Instr, [])) ∧
    c7Instr.toBytes SymbolTable.new = .ok [1, 0, 1, 0, 2, 0, 3] ∧
    ([1, 0, 1, 0, 2, 0, 3] : List Nat).length ≠ 4 := by
  refine ⟨by decide, by decide, by decide⟩

/-! ## Claim C10 -/

theorem handleAsciiz_phase2 (a : Assembler) (i : AssemblerInstruction)
    (h : a.phase = .Second) : a.handleAsciiz i = (none, a) := by
  unfold Assembler.handleAsciiz
  rw [if_pos]
  rw [h]
  decide

theorem processDirective_phase2_state (a : Assembler) (i : AssemblerInstruction)
    (h : a.phase = .Second) :
    ((a.processDirective i).2).ro = a.ro ∧
    ((a.processDirective i).2).roOffset = a.roOffset ∧
    ((a.processDirective i).2).phase = a.phase := by
  unfold Assembler.processDirective
  cases hd : i.getDirectiveName with
  | error e => exact ⟨rfl, rfl, rfl⟩
  | ok o =>
    cases o with
    | none => exact ⟨rfl, rfl, rfl⟩
    | some name =>
      dsimp only
      split
      · split
        · rw [handleAsciiz_phase2 a i h]
          exact ⟨rfl, rfl, rfl⟩
        · exact ⟨rfl, rfl, rfl⟩
        · exact ⟨rfl, rfl, rfl⟩
      · unfold Assembler.processSectionHeader
        dsimp only
        split
        · exact ⟨rfl, rfl, rfl⟩
        · exact ⟨rfl, rfl, rfl⟩

theorem secondPhaseStep_state (a : Assembler) (i : AssemblerInstruction)
    (h : a.phase = .Second) :
    ((a.secondPhaseStep i).2.2).ro = a.ro ∧
    ((a.secondPhaseStep i).2.2).roOffset = a.roOffset ∧
    ((a.secondPhaseStep i).2.2).phase = a.phase := by
  unfold Assembler.secondPhaseStep
  dsimp only
  split
  · exact ⟨rfl, rfl, rfl⟩
  · split
    · rename_i e1 a1 heq
      split at heq
      · obtain ⟨h1, h2, h3⟩ := processDirective_phase2_state a i h
        rw [heq] at h1 h2 h3
        exact ⟨h1, h2, h3⟩
      · simp at heq
    · rename_i a1 heq
      split at heq
      · obtain ⟨h1, h2, h3⟩ := processDirective_phase2_state a i h
        rw [heq] at h1 h2 h3
        exact ⟨h1, h2, h3⟩
      · simp at heq
        subst heq
        exact ⟨rfl, rfl, rfl⟩

theorem secondPhaseList_state (l : List AssemblerInstruction) (a : Assembler)
    (h : a.phase = .Second) :
    ((Assembler.secondPhaseList a l).2.2).ro = a.ro ∧
    ((Assembler.secondPhaseList a l).2.2).roOffset = a.roOffset ∧
    ((Assembler.secondPhaseList a l).2.2).phase = a.phase := by
  induction l generalizing a with
  | nil => exact ⟨rfl, rfl, rfl⟩
  | cons i rest ih =>
    unfold Assembler.secondPhaseList
    obtain ⟨h1, h2, h3⟩ := secondPhaseStep_state a i h
    rcases hst : a.secondPhaseStep i with ⟨p, bs, a1⟩
    rw [hst] at h1 h2 h3
    cases p with
    | some e => exact ⟨h1, h2, h3⟩
    | none =>
      obtain ⟨g1, g2, g3⟩ := ih a1 (h3.trans h)
      dsimp only
      rcases hsl : Assembler.secondPhaseList a1 rest with ⟨p2, bs2, a2⟩
      rw [hsl] at g1 g2 g3
      exact ⟨g1.trans h1, g2.trans h2, g3.trans h3⟩

/-- C10.  Re-visiting directives during pass 2 leaves the read-only
section unchanged: `handle_asciiz` returns immediately when the phase is
not `First`, so `process_second_phase` preserves `ro` and `ro_offset`
exactly — no `.asciiz` constant's bytes are appended a second time and
the offset is not advanced again. -/
theorem c10_second_phase_preserves_ro (a : Assembler) (p : Program)
    (h : a.phase = .Second) :
    ((a.processSecondPhase p).2.2).ro = a.ro ∧
    ((a.processSecondPhase p).2.2).roOffset = a.roOffset := by
  obtain ⟨h1, h2, _⟩ :=
    secondPhaseList_state p.instructions { a with currInstruction := 0 } h
  exact ⟨h1, h2⟩

/-- Witness for C10: pass 2 over the scenario-2 program from a
pass-1-completed state keeps `ro = "Hello\0"` and `ro_offset = 6`. -/
theorem c10_second_phase_preserves_ro_witness :
    ((c10Asm.processSecondPhase scen2Prog).2.2).ro = [72, 101, 108, 108, 111, 0] ∧
    ((c10Asm.processSecondPhase scen2Prog).2.2).roOffset = 6 :=
  c10_second_phase_preserves_ro c10Asm scen2Prog rfl

/-! ## Claim C6 -/

theorem find_setOffsetList_ne (l : List Symbol) (m n : String) (off : Nat)
    (hmn : m ≠ n) :
    (setOffsetList l m off).find? (fun s => s.name = n)
      = l.find? (fun s => s.name = n) := by
  induction l with
  | nil => rfl
  | cons s rest ih =>
    unfold setOffsetList
    split
    · rename_i hs
      have hsn : ¬(s.name = n) := by rw [hs]; exact hmn
      simp [List.find?_cons, hsn]
    · by_cases hn : s.name = n
      · simp [List.find?_cons, hn]
      · simp [List.find?_cons, hn, ih]

theorem symbolValue_setSymbolOffset_ne (t : SymbolTable) (m n : String)
    (off : Nat) (h : m ≠ n) :
    (t.setSymbolOffset m off).symbolValue n = t.symbolValue n := by
  unfold SymbolTable.setSymbolOffset SymbolTable.symbolValue
  rw [find_setOffsetList_ne t.symbols m n off h]

theorem symbolValue_addSymbol_label (t : SymbolTable) (name n : String) :
    (t.addSymbol (Symbol.new name .Label)).symbolValue n = t.symbolValue n := by
  unfold SymbolTable.addSymbol SymbolTable.symbolValue Symbol.new
  rw [List.find?_append]
  cases hf : t.symbols.find? (fun s => s.name = n) with
  | some s => rfl
  | none =>
    by_cases hn : name = n
    · simp [List.find?_cons, hn]
    · simp [List.find?_cons, hn]

theorem processLabelDeclaration_symval (a : Assembler) (i : AssemblerInstruction)
    (n : String) :
    (((a.processLabelDeclaration i).2).symbols).symbolValue n
      = (a.symbols).symbolValue n := by
  unfold Assembler.processLabelDeclaration
  cases hl : i.getLabelDeclarationName with
  | error e => rfl
  | ok o =>
    cases o with
    | none => rfl
    | some name =>
      dsimp only
      split
      · rfl
      · exact symbolValue_addSymbol_label a.symbols name n

theorem processDirective_symval (a : Assembler) (i : AssemblerInstruction)
    (n : String)
    (hi : ¬(i.containOperands = true ∧ i.getLabelDeclarationName = .ok (some n))) :
    (((a.processDirective i).2).symbols).symbolValue n
      = (a.symbols).symbolValue n := by
  unfold Assembler.processDirective
  cases hd : i.getDirectiveName with
  | error e => rfl
  | ok o =>
    cases o with
    | none => rfl
    | some name =>
      dsimp only
      split
      · rename_i hco
        split
        · unfold Assembler.handleAsciiz
          split
          · rfl
          · cases hs : i.getStringConstant with
            | error e => rfl
            | ok os =>
              cases os with
              | none => rfl
              | some str =>
                dsimp only
                cases hl : i.getLabelDeclarationName with
                | error e => rfl
                | ok ol =>
                  cases ol with
                  | none => rfl
                  | some m =>
                    dsimp only
                    have hm : m ≠ n := by
                      intro he
                      subst he
                      exact hi ⟨hco, hl⟩
                    exact symbolValue_setSymbolOffset_ne a.symbols m n a.roOffset hm
        · rfl
        · rfl
      · unfold Assembler.processSectionHeader
        dsimp only
        split
        · rfl
        · rfl

theorem firstPhaseStep_symval (a : Assembler) (i : AssemblerInstruction) (n : String)
    (hi : ¬(i.isDirective = true ∧ i.containOperands = true ∧
            i.getLabelDeclarationName = .ok (some n))) :
    (((a.firstPhaseStep i).2).symbols).symbolValue n = (a.symbols).symbolValue n := by
  unfold Assembler.firstPhaseStep
  dsimp only
  split
  · rename_i e1 a1 heq
    split at heq
    · rename_i hdir
      have hpd := processDirective_symval a i n (fun hx => hi ⟨hdir, hx.1, hx.2⟩)
      rw [heq] at hpd
      exact hpd
    · simp at heq
  · rename_i a1 heq
    have hpd : a1.symbols.symbolValue n = a.symbols.symbolValue n := by
      split at heq
      · rename_i hdir
        have hpd0 := processDirective_symval a i n (fun hx => hi ⟨hdir, hx.1, hx.2⟩)
        rw [heq] at hpd0
        exact hpd0
      · simp at heq
        subst heq
        rfl
    cases hcs : a1.currSection with
    | none => exact hpd
    | some s =>
      by_cases hld : i.isLabelDeclaration = true
      · rw [if_pos hld]
        have hll := processLabelDeclaration_symval a1 i n
        rcases hpl : a1.processLabelDeclaration i with ⟨p2, a2⟩
        rw [hpl] at hll
        cases p2 with
        | some e => exact hll.trans hpd
        | none => exact hll.trans hpd
      · rw [if_neg hld]
        exact hpd

theorem firstPhaseList_symval (l : List AssemblerInstruction) (a : Assembler)
    (n : String)
    (hl : ∀ i ∈ l, ¬(i.isDirective = true ∧ i.containOperands = true ∧
            i.getLabelDeclarationName = .ok (some n))) :
    (((Assembler.firstPhaseList a l).2).symbols).symbolValue n
      = (a.symbols).symbolValue n := by
  induction l generalizing a with
  | nil => rfl
  | cons i rest ih =>
    unfold Assembler.firstPhaseList
    have hstep := firstPhaseStep_symval a i n (hl i (by simp))
    rcases hst : a.firstPhaseStep i with ⟨p, a1⟩
    rw [hst] at hstep
    cases p with
    | some e => exact hstep
    | none =>
      have hrest := ih a1 (fun j hj => hl j (by simp [hj]))
      exact hrest.trans hstep

/-- C6 (amended).  After assembler pass 1, a code label's symbol carries
NO offset: `process_label_declaration` adds the symbol with `offset =
None` and nothing in pass 1 sets it (even `.asciiz`'s
`set_symbol_offset` call is a no-op for the label declared on the same
instruction, since it runs before the symbol is added).  Formally: if no
data directive (directive with operands) in the program carries label
`n`, then `symbol_value n` is `none` after pass 1 on a fresh assembler. -/
theorem c6_code_label_offset_unset (p : Program) (n : String)
    (h : ∀ i ∈ p.instructions, ¬(i.isDirective = true ∧ i.containOperands = true ∧
          i.getLabelDeclarationName = .ok (some n))) :
    (((Assembler.new.processFirstPhase p).2).symbols).symbolValue n = none :=
  firstPhaseList_symval p.instructions Assembler.new n h

/-- Witness for C6: pass 1 over `".data\n.code\ntest: inc $0\n"` leaves
the code label `test` without an offset. -/
theorem c6_code_label_offset_unset_witness :
    (((Assembler.new.processFirstPhase c6Prog).2).symbols).symbolValue "test" = none :=
  c6_code_label_offset_unset c6Prog "test" (by decide)

/-- Counterexample for C6 as stated: in `".data\n.code\ntest: inc $0\n"`
the label `test` is declared at code-section byte position 0, and after
pass 1 its symbol IS in the table, yet `symbol_value` does not return
offset 0 (it returns nothing at all). -/
theorem c6_counterexample :
    Program.parse ".data\n.code\ntest: inc $0\n" = .ok (some (c6Prog, [])) ∧
    ((Assembler.new.processFirstPhase c6Prog).2).symbols.containSymbol "test" = true ∧
    ¬((((Assembler.new.processFirstPhase c6Prog).2).symbols).symbolValue "test"
        = some 0) := by
  refine ⟨by decide, by decide, by decide⟩


/-! ## Lemmas: the `.integer` directive reaches `todo!()` in pass 1 -/

theorem processLabelDeclaration_no_panic (a : Assembler) (i : AssemblerInstruction)
    (h : i.isLabelDeclaration = true) :
    (a.processLabelDeclaration i).1 = none := by
  unfold Assembler.processLabelDeclaration
  cases hl : i.label with
  | none => simp [AssemblerInstruction.isLabelDeclaration, hl] at h
  | some tok =>
    unfold AssemblerInstruction.getLabelDeclarationName
    rw [hl]
    cases tok with
    | LabelDeclaration name =>
      dsimp only
      split
      · rfl
      · rfl
    | Op c => simp [AssemblerInstruction.isLabelDeclaration, hl] at h
    | Register r => simp [AssemblerInstruction.isLabelDeclaration, hl] at h
    | IntegerOperand v => simp [AssemblerInstruction.isLabelDeclaration, hl] at h
    | StringOperand v => simp [AssemblerInstruction.isLabelDeclaration, hl] at h
    | LabelUsage nm => simp [AssemblerInstruction.isLabelDeclaration, hl] at h
    | Directive nm => simp [AssemblerInstruction.isLabelDeclaration, hl] at h

theorem firstPhaseStep_after_directive (a : Assembler) (i : AssemblerInstruction)
    (hdir : i.isDirective = true)
    (hpd : (a.processDirective i).1 = none) :
    (a.firstPhaseStep i).1 = none := by
  unfold Assembler.firstPhaseStep
  dsimp only
  rw [if_pos hdir]
  rcases hpde : a.processDirective i with ⟨p, a1⟩
  rw [hpde] at hpd
  cases p with
  | some e => simp at hpd
  | none =>
    dsimp only
    cases hcs : a1.currSection with
    | none => rfl
    | some s =>
      by_cases hld : i.isLabelDeclaration = true
      · rw [if_pos hld]
        have hnl := processLabelDeclaration_no_panic a1 i hld
        rcases hpl : a1.processLabelDeclaration i with ⟨p2, a2⟩
        rw [hpl] at hnl
        cases p2 with
        | some e => simp at hnl
        | none => rfl
      · rw [if_neg hld]

theorem firstPhaseStep_no_directive (a : Assembler) (i : AssemblerInstruction)
    (hd : i.directive = none) :
    (a.firstPhaseStep i).1 = none := by
  have hdir : i.isDirective = false := by
    simp [AssemblerInstruction.isDirective, hd]
  unfold Assembler.firstPhaseStep
  dsimp only
  rw [if_neg (by simp [hdir])]
  dsimp only
  cases hcs : a.currSection with
  | none => rfl
  | some s =>
    by_cases hld : i.isLabelDeclaration = true
    · rw [if_pos hld]
      have hnl := processLabelDeclaration_no_panic a i hld
      rcases hpl : a.processLabelDeclaration i with ⟨p2, a2⟩
      rw [hpl] at hnl
      cases p2 with
      | some e => simp at hnl
      | none => rfl
    · rw [if_neg hld]

theorem firstPhaseStep_integer (a : Assembler) (i : AssemblerInstruction)
    (hd : i.directive = some (.Directive "integer"))
    (hco : i.containOperands = true) :
    (a.firstPhaseStep i).1 = some .todoInteger := by
  have hdir : i.isDirective = true := by
    simp [AssemblerInstruction.isDirective, hd]
  have hpd : a.processDirective i = (some .todoInteger, a) := by
    unfold Assembler.processDirective AssemblerInstruction.getDirectiveName
    rw [hd]
    dsimp only
    rw [if_pos hco]
    rfl
  unfold Assembler.firstPhaseStep
  dsimp only
  rw [if_pos hdir, hpd]

theorem handleAsciiz_no_panic (a : Assembler) (i : AssemblerInstruction)
    (ho1 : i.operand1.isSome = true)
    (hstr : ∀ s, i.operand1 = some (.StringOperand s) → i.label.isSome = true) :
    (a.handleAsciiz i).1 = none := by
  unfold Assembler.handleAsciiz
  by_cases hph : a.phase = .First
  · rw [if_neg (by simp [hph])]
    cases ho : i.operand1 with
    | none => rw [ho] at ho1; simp at ho1
    | some tok =>
      unfold AssemblerInstruction.getStringConstant
      rw [ho]
      cases tok with
      | Op c => rfl
      | Register r => rfl
      | IntegerOperand v => rfl
      | LabelDeclaration nm => rfl
      | LabelUsage nm => rfl
      | Directive nm => rfl
      | StringOperand s =>
        have hl := hstr s ho
        unfold AssemblerInstruction.getLabelDeclarationName
        cases hli : i.label with
        | none => rw [hli] at hl; simp at hl
        | some ltok => cases ltok <;> rfl
  · rw [if_pos hph]

theorem processDirective_no_panic (a : Assembler) (i : AssemblerInstruction)
    (dname : String)
    (hd : i.directive = some (.Directive dname))
    (hni : ¬(dname = "integer" ∧ i.containOperands = true))
    (ho1 : i.containOperands = true → i.operand1.isSome = true)
    (hstr : ∀ s, i.operand1 = some (.StringOperand s) → i.label.isSome = true) :
    (a.processDirective i).1 = none := by
  unfold Assembler.processDirective AssemblerInstruction.getDirectiveName
  rw [hd]
  dsimp only
  by_cases hco : i.containOperands = true
  · rw [if_pos hco]
    split <;>
      first
      | rfl
      | exact handleAsciiz_no_panic a i (ho1 hco) hstr
      | exact absurd ⟨rfl, hco⟩ hni
  · rw [if_neg hco]

theorem firstPhaseStep_shape_no_panic (a : Assembler) (i : AssemblerInstruction)
    (hs : noPanicShape i = true)
    (hni : ¬(i.directive = some (.Directive "integer") ∧
             i.containOperands = true)) :
    (a.firstPhaseStep i).1 = none := by
  cases hd : i.directive with
  | none => exact firstPhaseStep_no_directive a i hd
  | some tok =>
    have hss := hs
    simp only [noPanicShape, Bool.and_eq_true] at hss
    obtain ⟨⟨h1, h2⟩, h3⟩ := hss
    rw [hd] at h1
    cases tok with
    | Directive dname =>
      have hdir : i.isDirective = true := by
        simp [AssemblerInstruction.isDirective, hd]
      refine firstPhaseStep_after_directive a i hdir ?_
      refine processDirective_no_panic a i dname hd ?_ ?_ ?_
      · intro hic
        exact hni ⟨by rw [hd, hic.1], hic.2⟩
      · intro hco
        rw [hco] at h2
        simpa using h2
      · intro s hso
        rw [hso] at h3
        exact h3
    | Op c => simp at h1
    | Register r => simp at h1
    | IntegerOperand v => simp at h1
    | StringOperand v => simp at h1
    | LabelDeclaration nm => simp at h1
    | LabelUsage nm => simp at h1

theorem firstPhaseList_integer (l : List AssemblerInstruction) (a : Assembler)
    (hsh : ∀ i ∈ l, noPanicShape i = true)
    (hint : ∃ i ∈ l, i.directive = some (.Directive "integer") ∧
            i.containOperands = true) :
    (Assembler.firstPhaseList a l).1 = some .todoInteger := by
  induction l generalizing a with
  | nil => simp at hint
  | cons i rest ih =>
    unfold Assembler.firstPhaseList
    by_cases hii : i.directive = some (.Directive "integer") ∧
        i.containOperands = true
    · have hstep := firstPhaseStep_integer a i hii.1 hii.2
      rcases hst : a.firstPhaseStep i with ⟨p, a1⟩
      rw [hst] at hstep
      simp at hstep
      subst hstep
      rfl
    · have hstep := firstPhaseStep_shape_no_panic a i (hsh i (by simp)) hii
      rcases hst : a.firstPhaseStep i with ⟨p, a1⟩
      rw [hst] at hstep
      cases p with
      | some e => simp at hstep
      | none =>
        refine ih a1 (fun j hj => hsh j (by simp [hj])) ?_
        rcases hint with ⟨j, hj, hjj⟩
        rcases List.mem_cons.mp hj with h | h
        · exact absurd (h ▸ hjj) hii
        · exact ⟨j, h, hjj⟩

/-- C9.  A source program containing an `.integer` directive with at least
one operand makes `Assembler::assemble` reach the `todo!()` branch of
directive dispatch during pass 1 — a panic — rather than return an `Err`
with accumulated assembler errors.  The hypothesis `noPanicShape` records
shape facts true of every parser-produced instruction (a filled directive
slot holds a `Directive` token, operands fill `operand1` first, and a
string constant comes with a label), which rule out the assembler's other
incidental panics on the way to the dispatch. -/
theorem c9_integer_directive_panics (raw : String) (p : Program)
    (hp : Program.parse raw = .ok (some (p, [])))
    (hsh : ∀ i ∈ p.instructions, noPanicShape i = true)
    (hint : ∃ i ∈ p.instructions, i.directive = some (.Directive "integer") ∧
            i.containOperands = true) :
    (Assembler.new.assemble raw).1 = .panicked .todoInteger := by
  unfold Assembler.assemble
  rw [hp]
  dsimp only
  rw [if_neg (by simp)]
  unfold Assembler.assembleAst Assembler.processFirstPhase
  have hfp := firstPhaseList_integer p.instructions Assembler.new hsh hint
  rcases hfl : Assembler.firstPhaseList Assembler.new p.instructions with ⟨o, a1⟩
  rw [hfl] at hfp
  simp at hfp
  subst hfp
  rfl

/-- Witness for C9: `".integer #1"` parses to a one-instruction program and
assembling it panics at the `todo!()`. -/
theorem c9_integer_directive_panics_witness :
    (Assembler.new.assemble ".integer #1").1 = .panicked .todoInteger :=
  c9_integer_directive_panics ".integer #1" c9Prog (by decide) (by decide)
    (by decide)

end Iridium
